import Mathlib

/-!
Shallow embedding of the real-time participation core of the
holoscopic websocket server (src/models/Activity.js and
src/websocket-server.js), together with theorems about its
documented behaviour.

Conventions of the embedding:
* mongo documents are immutable Lean structures; a mutating JS method
  becomes a function returning the updated document;
* generated identifiers and timestamps (Date.now, Math.random) are taken
  as explicit arguments, since the JS code draws them nondeterministically;
* a JS method that can throw is embedded with Except; a throw happens in
  the source before any document mutation is saved, so the error case
  carries no state;
* JS `find` followed by in-place mutation of the found element is embedded
  by updateFirst, which rewrites the first element satisfying the
  predicate and leaves the rest untouched.
-/

namespace Holoscopic

/-! ### Data model (ActivitySchema, src/models/Activity.js lines 4-379) -/

/-- Vote sub-document of a comment (schema lines 333-352). -/
structure Vote where
  id : String
  userId : String
  username : String
  timestamp : Nat
deriving DecidableEq, Repr

/-- Position sub-document of a rating (schema lines 263-276); each
coordinate is a number in the unit interval. -/
structure Position where
  x : Rat
  y : Rat
deriving DecidableEq, Repr

/-- Comment sub-document (schema lines 284-357). -/
structure Comment where
  id : String
  userId : String
  username : String
  objectName : String
  slotNumber : Nat
  text : String
  timestamp : Nat
  votes : List Vote
  voteCount : Nat
deriving DecidableEq, Repr

/-- Rating sub-document (schema lines 235-281). -/
structure Rating where
  id : String
  userId : String
  username : String
  objectName : String
  slotNumber : Nat
  position : Position
  timestamp : Nat
deriving DecidableEq, Repr

/-- Participant sub-document (schema lines 203-232); one record per user
per activity. -/
structure Participant where
  id : String
  username : String
  objectName : Option String
  isConnected : Bool
  hasSubmitted : Bool
  joinedAt : Nat
deriving DecidableEq, Repr

/-- The activity document, restricted to the fields the participation
core reads or writes. -/
structure Activity where
  id : String
  votesPerUser : Option Nat
  maxEntries : Nat
  participants : List Participant
  ratings : List Rating
  comments : List Comment
deriving DecidableEq, Repr

/-! ### updateFirst: JS find-then-mutate on an array -/

/-- Rewrite the first element of the list satisfying p with f, leaving
every other element unchanged.  This is the embedding of the JS idiom
of Array.prototype.find followed by in-place mutation of the found
element, and of a Map.get followed by mutation of the stored value. -/
def updateFirst {α : Type} (p : α → Bool) (f : α → α) : List α → List α
  | [] => []
  | x :: xs => if p x then f x :: xs else x :: updateFirst p f xs

/-! ### Activity.js helper methods -/

/-- addParticipant (Activity.js lines 391-417): update the existing
participant record in place when the userId is already present,
otherwise push a fresh record. -/
def Activity.addParticipant (a : Activity) (userId username : String) (now : Nat) : Activity :=
  if a.participants.any (fun p => p.id == userId) then
    { a with participants :=
        (updateFirst (fun p => p.id == userId)
          (fun p => { p with username := username, isConnected := true, joinedAt := now })
          a.participants) }
  else
    { a with participants := a.participants ++
        [{ id := userId, username := username, objectName := none,
           isConnected := true, hasSubmitted := false, joinedAt := now }] }

/-- updateParticipantConnection (Activity.js lines 419-426): set the
connectivity flag on the participant record when it exists, otherwise
leave the document untouched. -/
def Activity.updateParticipantConnection (a : Activity) (userId : String)
    (isConnected : Bool) : Activity :=
  if a.participants.any (fun p => p.id == userId) then
    { a with participants :=
        (updateFirst (fun p => p.id == userId)
          (fun p => { p with isConnected := isConnected })
          a.participants) }
  else a

/-- The effect of one successful pass of the addRating loop body
(Activity.js lines 434-505).  The four store operations of the body are
composed in program order:
1. pull every vote whose voter differs from the rating owner out of the
   owner's comments for this slot (lines 449-461);
2. recompute the cached voteCount of those comments from the surviving
   votes (lines 464-472);
3. pull any prior rating for (userId, slot), mark the participant as
   having submitted, and propagate objectName onto the sibling
   comments (lines 475-492);
4. push the new rating (lines 499-503). -/
def Activity.addRatingApplied (a : Activity) (userId username : String)
    (pos : Position) (objectName : String) (slot : Nat)
    (ratingId : String) (now : Nat) : Activity :=
  let isTarget : Comment → Bool := fun c => c.userId == userId && c.slotNumber == slot
  let comments1 := a.comments.map fun c =>
    if isTarget c then { c with votes := c.votes.filter (fun v => v.userId == userId) } else c
  let comments2 := comments1.map fun c =>
    if isTarget c then { c with voteCount := c.votes.length } else c
  let comments3 := comments2.map fun c =>
    if isTarget c then { c with objectName := objectName } else c
  let participants2 := a.participants.map fun p =>
    if p.id == userId then { p with hasSubmitted := true } else p
  let ratings2 := a.ratings.filter (fun r => !(r.userId == userId && r.slotNumber == slot))
  { a with comments := comments3, participants := participants2,
           ratings := ratings2 ++
             [{ id := ratingId, userId := userId, username := username,
                objectName := objectName, slotNumber := slot,
                position := pos, timestamp := now }] }

/-- addComment (Activity.js lines 520-546): drop any prior comment of
the same user and slot, push a fresh one with an empty vote list, and
mark the participant as having submitted. -/
def Activity.addComment (a : Activity) (userId username text objectName : String)
    (slot : Nat) (commentId : String) (now : Nat) : Activity :=
  let comments2 : List Comment :=
    (a.comments.filter (fun c => !(c.userId == userId && c.slotNumber == slot))) ++
      [{ id := commentId, userId := userId, username := username,
         objectName := objectName, slotNumber := slot, text := text,
         timestamp := now, votes := [], voteCount := 0 }]
  let participants2 :=
    if a.participants.any (fun p => p.id == userId) then
      updateFirst (fun p => p.id == userId) (fun p => { p with hasSubmitted := true })
        a.participants
    else a.participants
  { a with comments := comments2, participants := participants2 }

/-- getUserVoteCount (Activity.js lines 584-592): the number of comments
of the activity carrying at least one vote by the user. -/
def Activity.getUserVoteCount (a : Activity) (userId : String) : Nat :=
  (a.comments.filter (fun c => c.votes.any (fun v => v.userId == userId))).length

/-- Errors thrown by voteComment (Activity.js lines 548-581). -/
inductive VoteError
  | commentNotFound
  | voteLimitExceeded (limit : Nat)
deriving DecidableEq, Repr

/-- The push half of the voteComment toggle (Activity.js lines 569-577):
append the freshly generated vote and set the cached count to the new
list length. -/
def Activity.pushVote (a : Activity) (commentId userId username voteId : String)
    (now : Nat) : Activity :=
  let newVote : Vote :=
    { id := voteId, userId := userId, username := username, timestamp := now }
  { a with comments :=
      (updateFirst (fun c => c.id == commentId)
        (fun c => { c with
            votes := c.votes ++ [newVote],
            voteCount := (c.votes ++ [newVote]).length })
        a.comments) }

/-- voteComment (Activity.js lines 548-581): toggle semantics.  When the
voter already has a vote on the comment, remove every vote of that voter
and decrement the cached count, floored at zero.  Otherwise enforce the
per-user cap when votesPerUser is set, then append a fresh vote. -/
def Activity.voteComment (a : Activity) (commentId userId username voteId : String)
    (now : Nat) : Except VoteError Activity :=
  match a.comments.find? (fun c => c.id == commentId) with
  | none => .error .commentNotFound
  | some c =>
    if c.votes.any (fun v => v.userId == userId) then
      .ok { a with comments :=
        (updateFirst (fun x => x.id == commentId)
          (fun x => { x with
              votes := x.votes.filter (fun v => !(v.userId == userId)),
              voteCount := x.voteCount - 1 })
          a.comments) }
    else
      match a.votesPerUser with
      | some limit =>
        if limit ≤ a.getUserVoteCount userId then
          .error (.voteLimitExceeded limit)
        else
          .ok (a.pushVote commentId userId username voteId now)
      | none => .ok (a.pushVote commentId userId username voteId now)

/-! ### Generic lemmas on updateFirst and filters -/

theorem updateFirst_length {α : Type} (p : α → Bool) (f : α → α) (l : List α) :
    (updateFirst p f l).length = l.length := by
  induction l with
  | nil => rfl
  | cons x xs ih =>
    by_cases h : p x
    · simp [updateFirst, h]
    · simp [updateFirst, h, ih]

/-- Decompose a list around the first element satisfying p, and describe
updateFirst on it. -/
theorem find?_decomp {α : Type} (p : α → Bool) (f : α → α) {l : List α} {x : α}
    (h : l.find? p = some x) :
    ∃ l₁ l₂, l = l₁ ++ x :: l₂ ∧ (∀ y ∈ l₁, p y = false) ∧ p x = true ∧
      updateFirst p f l = l₁ ++ f x :: l₂ := by
  induction l with
  | nil => simp [List.find?] at h
  | cons a t ih =>
    by_cases hpa : p a
    · rw [List.find?_cons_of_pos _ hpa] at h
      obtain rfl : a = x := by injection h
      exact ⟨[], t, rfl, by simp, hpa, by simp [updateFirst, hpa]⟩
    · rw [List.find?_cons_of_neg _ hpa] at h
      obtain ⟨l₁, l₂, rfl, h1, h2, h3⟩ := ih h
      refine ⟨a :: l₁, l₂, rfl, ?_, h2, ?_⟩
      · intro y hy
        rcases List.mem_cons.mp hy with rfl | hy
        · exact Bool.eq_false_iff.mpr hpa
        · exact h1 y hy
      · simp [updateFirst, hpa, h3]

theorem any_eq_true_of_find?_eq_some {α : Type} {p : α → Bool} {l : List α} {x : α}
    (h : l.find? p = some x) : l.any p = true := by
  obtain ⟨l₁, l₂, rfl, -, h2, -⟩ := find?_decomp p id h
  simp [List.any_append, h2]

theorem find?_eq_some_of_any {α : Type} {p : α → Bool} {l : List α}
    (h : l.any p = true) : ∃ x, l.find? p = some x := by
  induction l with
  | nil => simp at h
  | cons a t ih =>
    by_cases hpa : p a
    · exact ⟨a, List.find?_cons_of_pos _ hpa⟩
    · rw [List.any_cons, Bool.eq_false_iff.mpr hpa, Bool.false_or] at h
      obtain ⟨x, hx⟩ := ih h
      exact ⟨x, by rw [List.find?_cons_of_neg _ hpa]; exact hx⟩

/-- find? skips a prefix on which the predicate is everywhere false. -/
theorem find?_append_of_prefix_false {α : Type} {p : α → Bool} {l₁ : List α}
    (l₂ : List α) (h : ∀ y ∈ l₁, p y = false) :
    (l₁ ++ l₂).find? p = l₂.find? p := by
  induction l₁ with
  | nil => rfl
  | cons a t ih =>
    have ha : p a = false := h a (List.mem_cons_self a t)
    rw [List.cons_append, List.find?_cons_of_neg _ (by simp [ha])]
    exact ih (fun y hy => h y (List.mem_cons_of_mem a hy))

/-- A pointwise-stronger predicate keeps no more elements. -/
theorem filter_length_mono {α : Type} {p q : α → Bool} (l : List α)
    (h : ∀ x, p x = true → q x = true) :
    (l.filter p).length ≤ (l.filter q).length := by
  induction l with
  | nil => simp
  | cons a t ih =>
    by_cases hpa : p a
    · have hqa : q a = true := h a hpa
      simp [List.filter_cons, hpa, hqa]
      omega
    · have hpa' : p a = false := Bool.eq_false_iff.mpr hpa
      by_cases hqa : q a
      · simp [List.filter_cons, hpa', hqa]
        omega
      · simp [List.filter_cons, hpa', Bool.eq_false_iff.mpr hqa]
        exact ih

/-- When a list carries no element satisfying p, filtering the negation
keeps it whole. -/
theorem filter_not_of_any_eq_false {α : Type} {p : α → Bool} {l : List α}
    (h : l.any p = false) : l.filter (fun x => !(p x)) = l := by
  induction l with
  | nil => rfl
  | cons a t ih =>
    rw [List.any_cons] at h
    have hpa : p a = false := by
      cases hp : p a with
      | false => rfl
      | true => rw [hp] at h; simp at h
    have ht : t.any p = false := by
      cases hta : t.any p with
      | false => rfl
      | true => rw [hta] at h; simp at h
    simp [List.filter_cons, hpa, ih ht]

/-- Filtering a prefix on which p is everywhere false contributes
nothing. -/
theorem filter_eq_nil_of_all_false {α : Type} {p : α → Bool} {l : List α}
    (h : ∀ y ∈ l, p y = false) : l.filter p = [] := by
  induction l with
  | nil => rfl
  | cons a t ih =>
    have ha := h a (List.mem_cons_self a t)
    rw [List.filter_cons, if_neg (by simp [ha])]
    exact ih (fun y hy => h y (List.mem_cons_of_mem a hy))

/-! ### C1: vote invalidation on re-rating -/

/-- C1: for every activity, user A and slot S, one successful pass of
addRating for A and S leaves each of comment records of A for slot S
holding exactly the votes cast by A itself (every vote whose voter
differs from A is removed, A's own votes are preserved), and its cached
voteCount equal to the length of the surviving vote list. -/
theorem rating_invalidation_law (a : Activity) (userId username : String)
    (pos : Position) (objectName : String) (slot : Nat) (ratingId : String) (now : Nat)
    (i : Nat) (hi : i < a.comments.length)
    (hmine : (a.comments.get ⟨i, hi⟩).userId = userId)
    (hslot : (a.comments.get ⟨i, hi⟩).slotNumber = slot) :
    ∃ hi2 : i < (a.addRatingApplied userId username pos objectName slot ratingId now).comments.length,
      ((a.addRatingApplied userId username pos objectName slot ratingId now).comments.get ⟨i, hi2⟩).votes
          = (a.comments.get ⟨i, hi⟩).votes.filter (fun v => v.userId == userId)
        ∧ ((a.addRatingApplied userId username pos objectName slot ratingId now).comments.get ⟨i, hi2⟩).voteCount
          = ((a.addRatingApplied userId username pos objectName slot ratingId now).comments.get ⟨i, hi2⟩).votes.length := by
  simp only [List.get_eq_getElem] at hmine hslot ⊢
  have hlen : (a.addRatingApplied userId username pos objectName slot ratingId now).comments.length
      = a.comments.length := by
    simp [Activity.addRatingApplied]
  refine ⟨by rw [hlen]; exact hi, ?_, ?_⟩
  · simp [Activity.addRatingApplied, List.getElem_map, hmine, hslot]
  · simp [Activity.addRatingApplied, List.getElem_map, hmine, hslot]

/-- Concrete activity used to exercise the invalidation law: user alice
owns comment c1 in slot 1, carrying one vote by bob and one self-vote. -/
def exActC1 : Activity :=
  { id := "act1", votesPerUser := none, maxEntries := 1,
    participants := [], ratings := [],
    comments := [{ id := "c1", userId := "alice", username := "Alice",
                   objectName := "", slotNumber := 1, text := "hello",
                   timestamp := 0,
                   votes := [{ id := "v1", userId := "bob", username := "Bob", timestamp := 1 },
                             { id := "v2", userId := "alice", username := "Alice", timestamp := 2 }],
                   voteCount := 2 }] }

theorem exActC1_pos : 0 < exActC1.comments.length := by decide

/-- C1 witness: the invalidation law applied to exActC1 at its only
comment. -/
theorem rating_invalidation_law_witness :
    ((exActC1.comments.get ⟨0, exActC1_pos⟩).userId = "alice"
      ∧ (exActC1.comments.get ⟨0, exActC1_pos⟩).slotNumber = 1)
    ∧ ∃ hi2 : 0 < (exActC1.addRatingApplied "alice" "Alice" ⟨1, 0⟩ "" 1 "r1" 5).comments.length,
        ((exActC1.addRatingApplied "alice" "Alice" ⟨1, 0⟩ "" 1 "r1" 5).comments.get ⟨0, hi2⟩).votes
            = (exActC1.comments.get ⟨0, exActC1_pos⟩).votes.filter (fun v => v.userId == "alice")
          ∧ ((exActC1.addRatingApplied "alice" "Alice" ⟨1, 0⟩ "" 1 "r1" 5).comments.get ⟨0, hi2⟩).voteCount
            = ((exActC1.addRatingApplied "alice" "Alice" ⟨1, 0⟩ "" 1 "r1" 5).comments.get ⟨0, hi2⟩).votes.length :=
  ⟨⟨by decide, by decide⟩,
    rating_invalidation_law exActC1 "alice" "Alice" ⟨1, 0⟩ "" 1 "r1" 5 0 exActC1_pos
      (by decide) (by decide)⟩

/-! ### C4: at most one rating per (user, slot) -/

/-- Arguments of one successful addRating call for a fixed
(userId, slot): the caller-supplied username, objectName and position,
and the generated rating id and timestamp. -/
structure RatingCall where
  username : String
  objectName : String
  pos : Position
  ratingId : String
  now : Nat
deriving DecidableEq, Repr

/-- A sequence of successful addRating passes for a fixed user and
slot, applied in order. -/
def runRatings (a : Activity) (userId : String) (slot : Nat)
    (calls : List RatingCall) : Activity :=
  calls.foldl
    (fun s c => s.addRatingApplied userId c.username c.pos c.objectName slot c.ratingId c.now)
    a

theorem addRatingApplied_filter_match (a : Activity) (userId username : String)
    (pos : Position) (objectName : String) (slot : Nat) (rid : String) (now : Nat) :
    ((a.addRatingApplied userId username pos objectName slot rid now).ratings.filter
        (fun r => r.userId == userId && r.slotNumber == slot))
      = [{ id := rid, userId := userId, username := username, objectName := objectName,
           slotNumber := slot, position := pos, timestamp := now }] := by
  simp [Activity.addRatingApplied, List.filter_append, List.filter_filter]

theorem addRatingApplied_filter_other (a : Activity) (userId username : String)
    (pos : Position) (objectName : String) (slot : Nat) (rid : String) (now : Nat) :
    ((a.addRatingApplied userId username pos objectName slot rid now).ratings.filter
        (fun r => !(r.userId == userId && r.slotNumber == slot)))
      = a.ratings.filter (fun r => !(r.userId == userId && r.slotNumber == slot)) := by
  simp [Activity.addRatingApplied, List.filter_append, List.filter_filter]

theorem runRatings_filter_other (userId : String) (slot : Nat)
    (calls : List RatingCall) :
    ∀ a : Activity,
      ((runRatings a userId slot calls).ratings.filter
          (fun r => !(r.userId == userId && r.slotNumber == slot)))
        = a.ratings.filter (fun r => !(r.userId == userId && r.slotNumber == slot)) := by
  induction calls with
  | nil => intro a; rfl
  | cons d rest ih =>
    intro a
    rw [runRatings, List.foldl_cons]
    exact (ih _).trans (addRatingApplied_filter_other a userId d.username d.pos
      d.objectName slot d.ratingId d.now)

/-- C4: after any nonempty sequence of successful addRating passes for a
fixed (userId, slot), the ratings matching that pair form exactly the
singleton built from the most recent call, and every rating of another
user or another slot is untouched. -/
theorem rating_upsert_law (a : Activity) (userId : String) (slot : Nat)
    (calls : List RatingCall) (c : RatingCall) :
    ((runRatings a userId slot (calls ++ [c])).ratings.filter
        (fun r => r.userId == userId && r.slotNumber == slot))
        = [{ id := c.ratingId, userId := userId, username := c.username,
             objectName := c.objectName, slotNumber := slot, position := c.pos,
             timestamp := c.now }]
      ∧ ((runRatings a userId slot (calls ++ [c])).ratings.filter
          (fun r => !(r.userId == userId && r.slotNumber == slot)))
        = a.ratings.filter (fun r => !(r.userId == userId && r.slotNumber == slot)) := by
  constructor
  · rw [runRatings, List.foldl_append]
    exact addRatingApplied_filter_match _ userId c.username c.pos c.objectName slot
      c.ratingId c.now
  · exact runRatings_filter_other userId slot (calls ++ [c]) a

/-! ### C5: at most one participant record per (activity, user) -/

/-- Arguments of one join call for a fixed userId: the supplied display
name and the current time. -/
structure JoinCall where
  username : String
  now : Nat
deriving DecidableEq, Repr

/-- A sequence of join calls for a fixed userId, applied in order
(websocket-server.js join_activity handler calling
Activity.addParticipant). -/
def runJoins (a : Activity) (userId : String) (calls : List JoinCall) : Activity :=
  calls.foldl (fun s c => s.addParticipant userId c.username c.now) a

theorem addParticipant_count_one (a : Activity) (userId uname : String) (now : Nat)
    (h : (a.participants.filter (fun p => p.id == userId)).length ≤ 1) :
    ((a.addParticipant userId uname now).participants.filter
        (fun p => p.id == userId)).length = 1 := by
  by_cases hany : a.participants.any (fun p => p.id == userId)
  · obtain ⟨x, hx⟩ := find?_eq_some_of_any hany
    obtain ⟨l₁, l₂, hl, h1, h2, h3⟩ := find?_decomp (fun p : Participant => p.id == userId)
      (fun p : Participant =>
        { p with username := uname, isConnected := true, joinedAt := now }) hx
    have hfx : ({ x with username := uname, isConnected := true, joinedAt := now
        } : Participant).id == userId := h2
    have hl₁ : l₁.filter (fun p => p.id == userId) = [] := filter_eq_nil_of_all_false h1
    have hlen1 : (a.participants.filter (fun p => p.id == userId)).length
        = (l₂.filter (fun p => p.id == userId)).length + 1 := by
      rw [hl]
      simp [List.filter_append, List.filter_cons, h2, hl₁]
    have hl₂ : l₂.filter (fun p => p.id == userId) = [] :=
      List.length_eq_zero.mp (by omega)
    rw [Activity.addParticipant, if_pos hany]
    simp [h3, List.filter_append, List.filter_cons, hfx, hl₁, hl₂]
  · rw [Activity.addParticipant, if_neg hany]
    have hall : ∀ y ∈ a.participants, (fun p => p.id == userId) y = false := by
      intro y hy
      have := List.any_eq_false.mp (Bool.eq_false_iff.mpr hany) y hy
      exact Bool.eq_false_iff.mpr this
    simp [List.filter_append, filter_eq_nil_of_all_false hall]

theorem runJoins_count_one (userId : String) (calls : List JoinCall) (c : JoinCall) :
    ∀ a : Activity, (a.participants.filter (fun p => p.id == userId)).length ≤ 1 →
      ((runJoins a userId (calls ++ [c])).participants.filter
          (fun p => p.id == userId)).length = 1 := by
  induction calls with
  | nil =>
    intro a h
    exact addParticipant_count_one a userId c.username c.now h
  | cons d rest ih =>
    intro a h
    rw [List.cons_append, runJoins, List.foldl_cons]
    exact ih _ (le_of_eq (addParticipant_count_one a userId d.username d.now h))

/-- C5: when a participant list holds at most one record for userId,
any nonempty sequence of join calls leaves exactly one record for that
userId; moreover a join for an already-present userId rewrites that
record in place (updating username, isConnected and joinedAt), never
appends, and leaves the records of all other users untouched. -/
theorem participant_unique_law (a : Activity) (userId : String)
    (calls : List JoinCall) (c : JoinCall)
    (h0 : (a.participants.filter (fun p => p.id == userId)).length ≤ 1) :
    ((runJoins a userId (calls ++ [c])).participants.filter
        (fun p => p.id == userId)).length = 1
    ∧ ∀ uname now p0, a.participants.find? (fun p => p.id == userId) = some p0 →
        (a.addParticipant userId uname now).participants.length = a.participants.length
        ∧ (a.addParticipant userId uname now).participants.filter (fun p => p.id == userId)
            = [{ p0 with username := uname, isConnected := true, joinedAt := now }]
        ∧ (a.addParticipant userId uname now).participants.filter (fun p => !(p.id == userId))
            = a.participants.filter (fun p => !(p.id == userId)) := by
  refine ⟨runJoins_count_one userId calls c a h0, ?_⟩
  intro uname now p0 hfind
  have hany := any_eq_true_of_find?_eq_some hfind
  obtain ⟨l₁, l₂, hl, h1, h2, h3⟩ := find?_decomp (fun p : Participant => p.id == userId)
    (fun p : Participant =>
      { p with username := uname, isConnected := true, joinedAt := now }) hfind
  have hfx : ({ p0 with username := uname, isConnected := true, joinedAt := now
      } : Participant).id == userId := h2
  have hl₁ : l₁.filter (fun p => p.id == userId) = [] := filter_eq_nil_of_all_false h1
  have hlen1 : (a.participants.filter (fun p => p.id == userId)).length
      = (l₂.filter (fun p => p.id == userId)).length + 1 := by
    rw [hl]
    simp [List.filter_append, List.filter_cons, h2, hl₁]
  have hl₂ : l₂.filter (fun p => p.id == userId) = [] :=
    List.length_eq_zero.mp (by omega)
  rw [Activity.addParticipant, if_pos hany]
  refine ⟨?_, ?_, ?_⟩
  · rw [h3, hl]
    simp
  · simp [h3, List.filter_append, List.filter_cons, hfx, hl₁, hl₂]
  · rw [h3, hl]
    simp [List.filter_append, List.filter_cons, hfx, h2]

/-- Concrete activity used to exercise participant uniqueness: alice is
already present and disconnected. -/
def exActC5 : Activity :=
  { id := "act5", votesPerUser := none, maxEntries := 1,
    participants := [{ id := "alice", username := "Alice", objectName := none,
                       isConnected := false, hasSubmitted := false, joinedAt := 0 }],
    ratings := [], comments := [] }

/-- C5 witness: one re-join for alice keeps exactly one record and
rewrites it in place. -/
theorem participant_unique_law_witness :
    (exActC5.participants.filter (fun p => p.id == "alice")).length ≤ 1
    ∧ ((runJoins exActC5 "alice" ([] ++ [JoinCall.mk "Alicia" 7])).participants.filter
        (fun p => p.id == "alice")).length = 1
    ∧ (exActC5.addParticipant "alice" "Alicia" 7).participants.length
        = exActC5.participants.length := by
  have h := participant_unique_law exActC5 "alice" [] (JoinCall.mk "Alicia" 7) (by decide)
  exact ⟨by decide, h.1,
    (h.2 "Alicia" 7
      { id := "alice", username := "Alice", objectName := none,
        isConnected := false, hasSubmitted := false, joinedAt := 0 } (by decide)).1⟩

/-! ### Vote machinery shared by the toggle law and the cap law -/

/-- Arguments of one voteComment call: target comment, acting voter, and
the generated vote id and timestamp. -/
structure VoteCall where
  commentId : String
  userId : String
  username : String
  voteId : String
  now : Nat
deriving DecidableEq, Repr

/-- One voteComment invocation at the store level.  A throw happens in
the source before any mutation of the document, so the error case
leaves the stored activity unchanged. -/
def voteStep (a : Activity) (call : VoteCall) : Activity :=
  match a.voteComment call.commentId call.userId call.username call.voteId call.now with
  | .ok a2 => a2
  | .error _ => a

/-- A sequence of voteComment invocations, applied in order. -/
def runVotes (a : Activity) (calls : List VoteCall) : Activity :=
  calls.foldl voteStep a

/-- Total number of vote records by the user across all comments of the
activity. -/
def Activity.userVoteTotal (a : Activity) (userId : String) : Nat :=
  (a.comments.map (fun c => (c.votes.filter (fun v => v.userId == userId)).length)).sum

/-- Each comment carries at most one vote record by the user: the Vote
invariant of the schema. -/
def Activity.voterUnique (a : Activity) (userId : String) : Prop :=
  ∀ c ∈ a.comments, (c.votes.filter (fun v => v.userId == userId)).length ≤ 1

theorem filter_length_pos_of_any {α : Type} {p : α → Bool} {l : List α}
    (h : l.any p = true) : 1 ≤ (l.filter p).length := by
  obtain ⟨x, hx⟩ := find?_eq_some_of_any h
  obtain ⟨l₁, l₂, rfl, h1, h2, -⟩ := find?_decomp p id hx
  simp [List.filter_append, List.filter_cons, h2]
  omega

theorem filter_length_eq_zero_of_any_false {α : Type} {p : α → Bool} {l : List α}
    (h : l.any p = false) : (l.filter p).length = 0 := by
  have hall : ∀ y ∈ l, p y = false := by
    intro y hy
    exact Bool.eq_false_iff.mpr (List.any_eq_false.mp h y hy)
  rw [filter_eq_nil_of_all_false hall]
  rfl

theorem any_filter_not {α : Type} (p : α → Bool) (l : List α) :
    (l.filter (fun x => !(p x))).any p = false := by
  rw [List.any_eq_false]
  intro x hx
  have := (List.mem_filter.mp hx).2
  simp at this
  simp [this]

theorem filter_length_split {α : Type} (p : α → Bool) (l : List α) :
    (l.filter p).length + (l.filter (fun x => !(p x))).length = l.length := by
  induction l with
  | nil => rfl
  | cons a t ih =>
    by_cases hpa : p a
    · simp [List.filter_cons, hpa]
      omega
    · simp [List.filter_cons, Bool.eq_false_iff.mpr hpa]
      omega

theorem sum_map_append_cons {α : Type} (g : α → Nat) (l₁ : List α) (x : α) (l₂ : List α) :
    ((l₁ ++ x :: l₂).map g).sum = (l₁.map g).sum + g x + (l₂.map g).sum := by
  simp only [List.map_append, List.sum_append, List.map_cons, List.sum_cons]
  omega

/-- updateFirst acts at the head of the matching tail when the prefix is
predicate-free. -/
theorem updateFirst_append_of_prefix_false {α : Type} {p : α → Bool} (f : α → α)
    {l₁ : List α} {x : α} (l₂ : List α)
    (h1 : ∀ y ∈ l₁, p y = false) (hx : p x = true) :
    updateFirst p f (l₁ ++ x :: l₂) = l₁ ++ f x :: l₂ := by
  induction l₁ with
  | nil => simp [updateFirst, hx]
  | cons a t ih =>
    have ha := h1 a (List.mem_cons_self a t)
    simp [updateFirst, ha, ih (fun y hy => h1 y (List.mem_cons_of_mem a hy))]

theorem find?_append_cons_pos {α : Type} {p : α → Bool} {l₁ : List α} {x : α}
    (l₂ : List α) (h1 : ∀ y ∈ l₁, p y = false) (hx : p x = true) :
    (l₁ ++ x :: l₂).find? p = some x := by
  rw [find?_append_of_prefix_false _ h1, List.find?_cons_of_pos _ hx]

/-- getUserVoteCount agrees with the total vote count under the Vote
uniqueness invariant. -/
theorem count_comments_aux (userId : String) (cs : List Comment)
    (h : ∀ c ∈ cs, (c.votes.filter (fun v => v.userId == userId)).length ≤ 1) :
    (cs.filter (fun c => c.votes.any (fun v => v.userId == userId))).length
      = (cs.map (fun c => (c.votes.filter (fun v => v.userId == userId)).length)).sum := by
  induction cs with
  | nil => rfl
  | cons c t ih =>
    have hc := h c (List.mem_cons_self c t)
    have ht := ih (fun x hx => h x (List.mem_cons_of_mem c hx))
    by_cases hany : c.votes.any (fun v => v.userId == userId)
    · have h1 : 1 ≤ (c.votes.filter (fun v => v.userId == userId)).length :=
        filter_length_pos_of_any hany
      have hone : (c.votes.filter (fun v => v.userId == userId)).length = 1 := by omega
      simp [List.filter_cons, hany, hone, ht]
      omega
    · have h0 : (c.votes.filter (fun v => v.userId == userId)).length = 0 :=
        filter_length_eq_zero_of_any_false (Bool.eq_false_iff.mpr hany)
      simp [List.filter_cons, Bool.eq_false_iff.mpr hany, h0, ht]

theorem getUserVoteCount_eq_total (a : Activity) (userId : String)
    (hu : a.voterUnique userId) :
    a.getUserVoteCount userId = a.userVoteTotal userId :=
  count_comments_aux userId a.comments hu

/-! ### Evaluation lemmas for voteComment -/

/-- The vote record generated by one voteComment call. -/
def VoteCall.newVote (call : VoteCall) : Vote :=
  { id := call.voteId, userId := call.userId, username := call.username, timestamp := call.now }

/-- The comment update of the removal branch of voteComment. -/
def delVotes (userId : String) (x : Comment) : Comment :=
  { x with votes := x.votes.filter (fun v => !(v.userId == userId)),
           voteCount := x.voteCount - 1 }

/-- The comment update of the push branch of voteComment. -/
def addVote (call : VoteCall) (x : Comment) : Comment :=
  { x with votes := x.votes ++ [call.newVote],
           voteCount := (x.votes ++ [call.newVote]).length }

theorem pushVote_eq (a : Activity) (call : VoteCall) :
    a.pushVote call.commentId call.userId call.username call.voteId call.now
      = { a with comments :=
            (updateFirst (fun c => c.id == call.commentId) (addVote call) a.comments) } := rfl

theorem voteComment_notfound_eq (a : Activity) (call : VoteCall)
    (hfind : a.comments.find? (fun x => x.id == call.commentId) = none) :
    a.voteComment call.commentId call.userId call.username call.voteId call.now
      = .error .commentNotFound := by
  unfold Activity.voteComment
  simp only [hfind]

theorem voteComment_remove_eq (a : Activity) (call : VoteCall) (c : Comment)
    (hfind : a.comments.find? (fun x => x.id == call.commentId) = some c)
    (hvoted : (c.votes.any (fun v => v.userId == call.userId)) = true) :
    a.voteComment call.commentId call.userId call.username call.voteId call.now
      = .ok { a with comments :=
          (updateFirst (fun x => x.id == call.commentId) (delVotes call.userId) a.comments) } := by
  unfold Activity.voteComment delVotes
  simp only [hfind, hvoted, if_true]

theorem voteComment_limit_eq (a : Activity) (call : VoteCall) (c : Comment) (N : Nat)
    (hfind : a.comments.find? (fun x => x.id == call.commentId) = some c)
    (hvoted : (c.votes.any (fun v => v.userId == call.userId)) = false)
    (hN : a.votesPerUser = some N)
    (hcap : N ≤ a.getUserVoteCount call.userId) :
    a.voteComment call.commentId call.userId call.username call.voteId call.now
      = .error (.voteLimitExceeded N) := by
  unfold Activity.voteComment
  simp only [hfind, hvoted, hN, Bool.false_eq_true, if_false, if_pos hcap]

theorem voteComment_push_some_eq (a : Activity) (call : VoteCall) (c : Comment) (N : Nat)
    (hfind : a.comments.find? (fun x => x.id == call.commentId) = some c)
    (hvoted : (c.votes.any (fun v => v.userId == call.userId)) = false)
    (hN : a.votesPerUser = some N)
    (hcap : ¬ N ≤ a.getUserVoteCount call.userId) :
    a.voteComment call.commentId call.userId call.username call.voteId call.now
      = .ok { a with comments :=
          (updateFirst (fun x => x.id == call.commentId) (addVote call) a.comments) } := by
  unfold Activity.voteComment
  simp only [hfind, hvoted, hN, Bool.false_eq_true, if_false, if_neg hcap]
  rw [pushVote_eq, hN]

theorem voteComment_push_none_eq (a : Activity) (call : VoteCall) (c : Comment)
    (hfind : a.comments.find? (fun x => x.id == call.commentId) = some c)
    (hvoted : (c.votes.any (fun v => v.userId == call.userId)) = false)
    (hN : a.votesPerUser = none) :
    a.voteComment call.commentId call.userId call.username call.voteId call.now
      = .ok { a with comments :=
          (updateFirst (fun x => x.id == call.commentId) (addVote call) a.comments) } := by
  unfold Activity.voteComment
  simp only [hfind, hvoted, hN, Bool.false_eq_true, if_false]
  rw [pushVote_eq, hN]

theorem voteStep_eq_of_ok {a b : Activity} {call : VoteCall}
    (h : a.voteComment call.commentId call.userId call.username call.voteId call.now = .ok b) :
    voteStep a call = b := by
  unfold voteStep
  rw [h]

theorem voteStep_eq_of_error {a : Activity} {e : VoteError} {call : VoteCall}
    (h : a.voteComment call.commentId call.userId call.username call.voteId call.now
      = .error e) :
    voteStep a call = a := by
  unfold voteStep
  rw [h]

theorem band_elim_left {a b : Bool} (h : (a && b) = true) : a = true := by
  cases a
  · simp at h
  · rfl

theorem filter_singleton_length_le {α : Type} (p : α → Bool) (x : α) :
    (([x] : List α).filter p).length ≤ 1 := by
  by_cases h : p x
  · simp [List.filter_cons, h]
  · simp [List.filter_cons, h]

/-- Explicit-argument form of voteStep_eq_of_ok, for use at literal
calls. -/
theorem voteStep_eq_of_ok2 (a b : Activity) (call : VoteCall)
    (h : a.voteComment call.commentId call.userId call.username call.voteId call.now = .ok b) :
    voteStep a call = b := voteStep_eq_of_ok h

/-- One voteComment invocation preserves the vote cap and the Vote
uniqueness invariant of a fixed voter, whichever user acts. -/
theorem voteStep_preserve (voter : String) (N : Nat) (a : Activity) (call : VoteCall)
    (hN : a.votesPerUser = some N)
    (hu : a.voterUnique voter)
    (hle : a.userVoteTotal voter ≤ N) :
    (voteStep a call).votesPerUser = some N
    ∧ (voteStep a call).voterUnique voter
    ∧ (voteStep a call).userVoteTotal voter ≤ N := by
  cases hfind : a.comments.find? (fun c => c.id == call.commentId) with
  | none =>
    rw [voteStep_eq_of_error (voteComment_notfound_eq a call hfind)]
    exact ⟨hN, hu, hle⟩
  | some c =>
    obtain ⟨l₁, l₂, hl, h1, h2, -⟩ :=
      find?_decomp (fun x : Comment => x.id == call.commentId) id hfind
    have hcmem : c ∈ a.comments := by
      rw [hl]
      exact List.mem_append_right _ (List.mem_cons_self _ _)
    by_cases hvoted : (c.votes.any (fun v => v.userId == call.userId)) = true
    · rw [voteStep_eq_of_ok (voteComment_remove_eq a call c hfind hvoted)]
      rw [hl, updateFirst_append_of_prefix_false _ l₂ h1 h2]
      have hmono : (((delVotes call.userId c).votes).filter
            (fun v => v.userId == voter)).length
          ≤ (c.votes.filter (fun v => v.userId == voter)).length := by
        unfold delVotes
        simp only []
        rw [List.filter_filter]
        exact filter_length_mono _ (fun x hx => band_elim_left hx)
      refine ⟨hN, ?_, ?_⟩
      · intro x hx
        rcases List.mem_append.mp hx with hx1 | hx2
        · exact hu x (by rw [hl]; exact List.mem_append_left _ hx1)
        · rcases List.mem_cons.mp hx2 with rfl | hx3
          · exact le_trans hmono (hu c hcmem)
          · exact hu x (by rw [hl]; exact List.mem_append_right _ (List.mem_cons_of_mem _ hx3))
      · unfold Activity.userVoteTotal
        have e2 := sum_map_append_cons
          (fun c : Comment => (c.votes.filter (fun v => v.userId == voter)).length)
          l₁ (delVotes call.userId c) l₂
        have e1 := sum_map_append_cons
          (fun c : Comment => (c.votes.filter (fun v => v.userId == voter)).length)
          l₁ c l₂
        have hle2 : a.userVoteTotal voter ≤ N := hle
        unfold Activity.userVoteTotal at hle2
        rw [hl] at hle2
        rw [e1] at hle2
        rw [e2]
        omega
    · have hvoted0 : (c.votes.any (fun v => v.userId == call.userId)) = false :=
        Bool.eq_false_iff.mpr hvoted
      by_cases hcap : N ≤ a.getUserVoteCount call.userId
      · rw [voteStep_eq_of_error
          (voteComment_limit_eq a call c N hfind hvoted0 hN hcap)]
        exact ⟨hN, hu, hle⟩
      · rw [voteStep_eq_of_ok
          (voteComment_push_some_eq a call c N hfind hvoted0 hN hcap)]
        rw [hl, updateFirst_append_of_prefix_false _ l₂ h1 h2]
        have hgav : ((addVote call c).votes.filter (fun v => v.userId == voter)).length
            = (c.votes.filter (fun v => v.userId == voter)).length
              + (([call.newVote] : List Vote).filter (fun v => v.userId == voter)).length := by
          unfold addVote
          simp only [List.filter_append, List.length_append]
        refine ⟨hN, ?_, ?_⟩
        · intro x hx
          rcases List.mem_append.mp hx with hx1 | hx2
          · exact hu x (by rw [hl]; exact List.mem_append_left _ hx1)
          · rcases List.mem_cons.mp hx2 with rfl | hx3
            · rw [hgav]
              by_cases hvu : call.userId = voter
              · have hzero : (c.votes.filter (fun v => v.userId == voter)).length = 0 := by
                  rw [← hvu]
                  exact filter_length_eq_zero_of_any_false hvoted0
                have hone : (([call.newVote] : List Vote).filter
                    (fun v => v.userId == voter)).length ≤ 1 :=
                  filter_singleton_length_le _ _
                omega
              · have hvu2 : (call.userId == voter) = false := beq_eq_false_iff_ne.mpr hvu
                have hzero : (([call.newVote] : List Vote).filter
                    (fun v => v.userId == voter)).length = 0 := by
                  simp [List.filter_cons, VoteCall.newVote, hvu2]
                rw [hzero]
                have := hu c hcmem
                omega
            · exact hu x
                (by rw [hl]; exact List.mem_append_right _ (List.mem_cons_of_mem _ hx3))
        · unfold Activity.userVoteTotal
          have e2 := sum_map_append_cons
            (fun c : Comment => (c.votes.filter (fun v => v.userId == voter)).length)
            l₁ (addVote call c) l₂
          have e1 := sum_map_append_cons
            (fun c : Comment => (c.votes.filter (fun v => v.userId == voter)).length)
            l₁ c l₂
          have hle2 : a.userVoteTotal voter ≤ N := hle
          unfold Activity.userVoteTotal at hle2
          rw [hl] at hle2
          rw [e1] at hle2
          rw [e2, hgav]
          by_cases hvu : call.userId = voter
          · have hzero : (c.votes.filter (fun v => v.userId == voter)).length = 0 := by
              rw [← hvu]
              exact filter_length_eq_zero_of_any_false hvoted0
            have hone : (([call.newVote] : List Vote).filter
                (fun v => v.userId == voter)).length ≤ 1 :=
              filter_singleton_length_le _ _
            have hcount : a.getUserVoteCount voter = a.userVoteTotal voter :=
              getUserVoteCount_eq_total a voter hu
            have hlt : a.userVoteTotal voter < N := by
              rw [← hcount, ← hvu]
              omega
            unfold Activity.userVoteTotal at hlt
            rw [hl] at hlt
            rw [e1] at hlt
            omega
          · have hvu2 : (call.userId == voter) = false := beq_eq_false_iff_ne.mpr hvu
            have hzero : (([call.newVote] : List Vote).filter
                (fun v => v.userId == voter)).length = 0 := by
              simp [List.filter_cons, VoteCall.newVote, hvu2]
            omega

/-- The run-level version of voteStep_preserve. -/
theorem runVotes_preserve (voter : String) (N : Nat) (calls : List VoteCall) :
    ∀ a : Activity, a.votesPerUser = some N → a.voterUnique voter →
      a.userVoteTotal voter ≤ N →
      (runVotes a calls).votesPerUser = some N
      ∧ (runVotes a calls).voterUnique voter
      ∧ (runVotes a calls).userVoteTotal voter ≤ N := by
  induction calls with
  | nil => exact fun a h1 h2 h3 => ⟨h1, h2, h3⟩
  | cons d rest ih =>
    intro a h1 h2 h3
    obtain ⟨g1, g2, g3⟩ := voteStep_preserve voter N a d h1 h2 h3
    exact ih _ g1 g2 g3

/-! ### C3: per-user vote cap -/

/-- C3: with a configured cap votesPerUser = N, starting from a state
where the voter holds at most N votes (one per comment, the Vote
invariant), no sequence of voteComment calls can leave the voter holding
more than N votes; a new-vote attempt made while the voter holds exactly
N votes fails with voteLimitExceeded and, having thrown before any
mutation, leaves the activity unchanged; and a toggle-removal is always
permitted regardless of the cap. -/
theorem vote_cap_law (a : Activity) (N : Nat) (voter : String)
    (hN : a.votesPerUser = some N) (hu : a.voterUnique voter)
    (hle : a.userVoteTotal voter ≤ N) (calls : List VoteCall) :
    (runVotes a calls).userVoteTotal voter ≤ N
    ∧ (∀ cid uname vid t c, a.comments.find? (fun x => x.id == cid) = some c →
        (c.votes.any (fun v => v.userId == voter)) = false →
        a.getUserVoteCount voter = N →
        a.voteComment cid voter uname vid t = .error (.voteLimitExceeded N)
          ∧ voteStep a ⟨cid, voter, uname, vid, t⟩ = a)
    ∧ (∀ cid uname vid t c, a.comments.find? (fun x => x.id == cid) = some c →
        (c.votes.any (fun v => v.userId == voter)) = true →
        ∃ a2, a.voteComment cid voter uname vid t = .ok a2) := by
  refine ⟨(runVotes_preserve voter N calls a hN hu hle).2.2, ?_, ?_⟩
  · intro cid uname vid t c hfind hnov hcount
    have hcap : N ≤ a.getUserVoteCount voter := le_of_eq hcount.symm
    have herr := voteComment_limit_eq a ⟨cid, voter, uname, vid, t⟩ c N hfind hnov hN hcap
    exact ⟨herr, voteStep_eq_of_error herr⟩
  · intro cid uname vid t c hfind hv
    exact ⟨_, voteComment_remove_eq a ⟨cid, voter, uname, vid, t⟩ c hfind hv⟩

/-- Concrete activity for the cap law: votesPerUser = 1 and bob already
holds one vote, on comment c2. -/
def exActC3 : Activity :=
  { id := "act3", votesPerUser := some 1, maxEntries := 1,
    participants := [], ratings := [],
    comments := [
      { id := "c1", userId := "ann", username := "Ann", objectName := "",
        slotNumber := 1, text := "first", timestamp := 0, votes := [], voteCount := 0 },
      { id := "c2", userId := "ben", username := "Ben", objectName := "",
        slotNumber := 1, text := "second", timestamp := 0,
        votes := [{ id := "v1", userId := "bob", username := "Bob", timestamp := 1 }],
        voteCount := 1 }] }

/-- C3 witness: bob at the cap cannot vote on c1 but can still toggle
the c2 vote off, and no call sequence pushes bob past the cap. -/
theorem vote_cap_law_witness :
    (runVotes exActC3 [⟨"c1", "bob", "Bob", "v9", 9⟩]).userVoteTotal "bob" ≤ 1
    ∧ exActC3.voteComment "c1" "bob" "Bob" "v9" 9 = .error (.voteLimitExceeded 1)
    ∧ ∃ a2, exActC3.voteComment "c2" "bob" "Bob" "v8" 8 = .ok a2 := by
  have h := vote_cap_law exActC3 1 "bob" rfl
    (by unfold Activity.voterUnique; decide) (by decide)
    [⟨"c1", "bob", "Bob", "v9", 9⟩]
  refine ⟨h.1, ?_, ?_⟩
  · exact (h.2.1 "c1" "Bob" "v9" 9
      { id := "c1", userId := "ann", username := "Ann", objectName := "",
        slotNumber := 1, text := "first", timestamp := 0, votes := [], voteCount := 0 }
      (by decide) (by decide) (by decide)).1
  · exact h.2.2 "c2" "Bob" "v8" 8
      { id := "c2", userId := "ben", username := "Ben", objectName := "",
        slotNumber := 1, text := "second", timestamp := 0,
        votes := [{ id := "v1", userId := "bob", username := "Bob", timestamp := 1 }],
        voteCount := 1 }
      (by decide) (by decide)

/-! ### C2: the double-toggle law -/

/-- Comment owned by ann carrying a single vote by bob, with a
consistent cached count. -/
def exCommentC2 : Comment :=
  { id := "c1", userId := "ann", username := "Ann", objectName := "",
    slotNumber := 1, text := "t", timestamp := 0,
    votes := [{ id := "v0", userId := "bob", username := "Bob", timestamp := 0 }],
    voteCount := 1 }

/-- Activity with unlimited votes holding only exCommentC2. -/
def exActC2 : Activity :=
  { id := "act2", votesPerUser := none, maxEntries := 1,
    participants := [], ratings := [], comments := [exCommentC2] }

/-- C2 counterexample: the toggle law as stated fails.  bob already has
a vote on c1 (and the cached count matches the vote list), yet toggling
twice does not return the comment to its pre-call vote set: the first
call removes vote v0 and the second call appends a vote carrying the
freshly generated id v2 and timestamp 20, so the vote list differs from
the original. -/
theorem vote_toggle_counterexample :
    (∃ c, exActC2.comments.find? (fun x => x.id == "c1") = some c
        ∧ c.voteCount = c.votes.length)
    ∧ ((voteStep (voteStep exActC2 ⟨"c1", "bob", "Bob", "v1", 10⟩)
          ⟨"c1", "bob", "Bob", "v2", 20⟩).comments.find?
            (fun x => x.id == "c1")).map Comment.votes
        ≠ (exActC2.comments.find? (fun x => x.id == "c1")).map Comment.votes := by
  constructor
  · exact ⟨exCommentC2, by decide, by decide⟩
  · decide

/-- The push-then-remove half of the amended toggle law: when the voter
had no vote, the first call appends one and the second call removes it,
restoring the comment exactly. -/
theorem toggle_add_then_remove (a : Activity) (cid voter uname vid1 vid2 : String)
    (t1 t2 : Nat) (c : Comment) (l₁ l₂ : List Comment)
    (hl : a.comments = l₁ ++ c :: l₂)
    (h1 : ∀ y ∈ l₁, (y.id == cid) = false)
    (h2 : (c.id == cid) = true)
    (hcount : c.voteCount = c.votes.length)
    (hvoted0 : (c.votes.any (fun v => v.userId == voter)) = false)
    (hs1 : voteStep a ⟨cid, voter, uname, vid1, t1⟩
      = { a with comments := (updateFirst (fun x => x.id == cid)
          (addVote ⟨cid, voter, uname, vid1, t1⟩) a.comments) }) :
    ∃ c2, ((voteStep (voteStep a ⟨cid, voter, uname, vid1, t1⟩)
              ⟨cid, voter, uname, vid2, t2⟩).comments.find? (fun x => x.id == cid)) = some c2
      ∧ c2.voteCount = c.voteCount
      ∧ c2.votes.filter (fun v => !(v.userId == voter))
          = c.votes.filter (fun v => !(v.userId == voter))
      ∧ (c2.votes.any (fun v => v.userId == voter))
          = (c.votes.any (fun v => v.userId == voter)) := by
  have hs1c : (voteStep a ⟨cid, voter, uname, vid1, t1⟩).comments
      = l₁ ++ addVote ⟨cid, voter, uname, vid1, t1⟩ c :: l₂ := by
    rw [hs1]
    show updateFirst (fun x => x.id == cid)
      (addVote ⟨cid, voter, uname, vid1, t1⟩) a.comments = _
    rw [hl]
    exact updateFirst_append_of_prefix_false _ l₂ h1 h2
  have hA_any : ((addVote ⟨cid, voter, uname, vid1, t1⟩ c).votes.any
      (fun v => v.userId == voter)) = true := by
    simp [addVote, VoteCall.newVote, List.any_append]
  have hfind2 : (voteStep a ⟨cid, voter, uname, vid1, t1⟩).comments.find?
      (fun x => x.id == cid) = some (addVote ⟨cid, voter, uname, vid1, t1⟩ c) := by
    rw [hs1c]
    exact find?_append_cons_pos l₂ h1 h2
  have hs2 := voteStep_eq_of_ok
    (voteComment_remove_eq (voteStep a ⟨cid, voter, uname, vid1, t1⟩)
      ⟨cid, voter, uname, vid2, t2⟩ (addVote ⟨cid, voter, uname, vid1, t1⟩ c) hfind2 hA_any)
  have hs2c : (voteStep (voteStep a ⟨cid, voter, uname, vid1, t1⟩)
      ⟨cid, voter, uname, vid2, t2⟩).comments
      = l₁ ++ delVotes voter (addVote ⟨cid, voter, uname, vid1, t1⟩ c) :: l₂ := by
    rw [hs2]
    show updateFirst (fun x => x.id == cid) (delVotes voter)
      (voteStep a ⟨cid, voter, uname, vid1, t1⟩).comments = _
    rw [hs1c]
    exact updateFirst_append_of_prefix_false _ l₂ h1 h2
  have hv2 : (delVotes voter (addVote ⟨cid, voter, uname, vid1, t1⟩ c)).votes = c.votes := by
    simp [delVotes, addVote, VoteCall.newVote, List.filter_append, List.filter_cons,
      filter_not_of_any_eq_false hvoted0]
  have hvc : (delVotes voter (addVote ⟨cid, voter, uname, vid1, t1⟩ c)).voteCount
      = c.votes.length := by
    simp [delVotes, addVote]
  refine ⟨delVotes voter (addVote ⟨cid, voter, uname, vid1, t1⟩ c), ?_, ?_, ?_, ?_⟩
  · rw [hs2c]
    exact find?_append_cons_pos l₂ h1 h2
  · rw [hvc, hcount]
  · rw [hv2]
  · rw [hv2]

/-- C2 (amended): calling voteComment twice in succession for the same
voter and comment, from a state where the cached voteCount matches the
vote list, the comment holds at most one vote by that voter, and the
voter is within the configured cap, restores the pre-call voteCount,
the pre-call votes of every other voter, and the pre-call
presence/absence of the voter.  (The voter's own vote record, when one
existed, is re-created with the freshly generated id and timestamp, so
the literal vote set is not restored; see the counterexample.) -/
theorem vote_toggle_law (a : Activity) (cid voter uname vid1 vid2 : String)
    (t1 t2 : Nat) (c : Comment)
    (hfind : a.comments.find? (fun x => x.id == cid) = some c)
    (hcount : c.voteCount = c.votes.length)
    (huniq : (c.votes.filter (fun v => v.userId == voter)).length ≤ 1)
    (hcap : ∀ N, a.votesPerUser = some N → a.getUserVoteCount voter ≤ N) :
    ∃ c2, ((voteStep (voteStep a ⟨cid, voter, uname, vid1, t1⟩)
              ⟨cid, voter, uname, vid2, t2⟩).comments.find? (fun x => x.id == cid)) = some c2
      ∧ c2.voteCount = c.voteCount
      ∧ c2.votes.filter (fun v => !(v.userId == voter))
          = c.votes.filter (fun v => !(v.userId == voter))
      ∧ (c2.votes.any (fun v => v.userId == voter))
          = (c.votes.any (fun v => v.userId == voter)) := by
  obtain ⟨l₁, l₂, hl, h1, h2, -⟩ :=
    find?_decomp (fun x : Comment => x.id == cid) id hfind
  by_cases hvoted : (c.votes.any (fun v => v.userId == voter)) = true
  · -- remove first, then push a regenerated vote
    have hs1 := voteStep_eq_of_ok
      (voteComment_remove_eq a ⟨cid, voter, uname, vid1, t1⟩ c hfind hvoted)
    have hs1c : (voteStep a ⟨cid, voter, uname, vid1, t1⟩).comments
        = l₁ ++ delVotes voter c :: l₂ := by
      rw [hs1]
      show updateFirst (fun x => x.id == cid) (delVotes voter) a.comments = _
      rw [hl]
      exact updateFirst_append_of_prefix_false _ l₂ h1 h2
    have hvD : ((delVotes voter c).votes.any (fun v => v.userId == voter)) = false :=
      any_filter_not _ _
    have hfind2 : (voteStep a ⟨cid, voter, uname, vid1, t1⟩).comments.find?
        (fun x => x.id == cid) = some (delVotes voter c) := by
      rw [hs1c]
      exact find?_append_cons_pos l₂ h1 h2
    have hpush : (voteStep a ⟨cid, voter, uname, vid1, t1⟩).voteComment cid voter uname vid2 t2
        = .ok { (voteStep a ⟨cid, voter, uname, vid1, t1⟩) with comments :=
            (updateFirst (fun x => x.id == cid) (addVote ⟨cid, voter, uname, vid2, t2⟩)
              (voteStep a ⟨cid, voter, uname, vid1, t1⟩).comments) } := by
      cases hNv : a.votesPerUser with
      | none =>
        have hNv1 : (voteStep a ⟨cid, voter, uname, vid1, t1⟩).votesPerUser = none := by
          rw [hs1]
          exact hNv
        exact voteComment_push_none_eq (voteStep a ⟨cid, voter, uname, vid1, t1⟩)
          ⟨cid, voter, uname, vid2, t2⟩ (delVotes voter c) hfind2 hvD hNv1
      | some N =>
        have hNv1 : (voteStep a ⟨cid, voter, uname, vid1, t1⟩).votesPerUser = some N := by
          rw [hs1]
          exact hNv
        have hcapN := hcap N hNv
        have hcap2 : ¬ N ≤ (voteStep a ⟨cid, voter, uname, vid1, t1⟩).getUserVoteCount voter := by
          unfold Activity.getUserVoteCount at hcapN ⊢
          rw [hs1c]
          rw [hl] at hcapN
          simp only [List.filter_append, List.filter_cons, List.length_append,
            List.length_cons, hvoted, hvD, if_true, Bool.false_eq_true, if_false] at hcapN ⊢
          omega
        exact voteComment_push_some_eq (voteStep a ⟨cid, voter, uname, vid1, t1⟩)
          ⟨cid, voter, uname, vid2, t2⟩ (delVotes voter c) N hfind2 hvD hNv1 hcap2
    have hs2 := voteStep_eq_of_ok2 _ _ ⟨cid, voter, uname, vid2, t2⟩ hpush
    have hs2c : (voteStep (voteStep a ⟨cid, voter, uname, vid1, t1⟩)
        ⟨cid, voter, uname, vid2, t2⟩).comments
        = l₁ ++ addVote ⟨cid, voter, uname, vid2, t2⟩ (delVotes voter c) :: l₂ := by
      rw [hs2]
      show updateFirst (fun x => x.id == cid) (addVote ⟨cid, voter, uname, vid2, t2⟩)
        (voteStep a ⟨cid, voter, uname, vid1, t1⟩).comments = _
      rw [hs1c]
      exact updateFirst_append_of_prefix_false _ l₂ h1 h2
    have hsplit := filter_length_split (fun v => v.userId == voter) c.votes
    have hpos := filter_length_pos_of_any hvoted
    have hvc : (addVote ⟨cid, voter, uname, vid2, t2⟩ (delVotes voter c)).voteCount
        = (c.votes.filter (fun v => !(v.userId == voter))).length + 1 := by
      simp [addVote, delVotes]
    refine ⟨addVote ⟨cid, voter, uname, vid2, t2⟩ (delVotes voter c), ?_, ?_, ?_, ?_⟩
    · rw [hs2c]
      exact find?_append_cons_pos l₂ h1 h2
    · rw [hvc, hcount]
      omega
    · simp [addVote, delVotes, VoteCall.newVote, List.filter_append, List.filter_cons,
        List.filter_filter, Bool.and_self]
    · rw [hvoted]
      simp [addVote, VoteCall.newVote, List.any_append]
  · -- no prior vote: either both calls are rejected at the cap, or the
    -- first pushes a vote and the second removes it again
    have hvoted0 : (c.votes.any (fun v => v.userId == voter)) = false :=
      Bool.eq_false_iff.mpr hvoted
    cases hNv : a.votesPerUser with
    | none =>
      exact toggle_add_then_remove a cid voter uname vid1 vid2 t1 t2 c l₁ l₂ hl h1 h2
        hcount hvoted0
        (voteStep_eq_of_ok (voteComment_push_none_eq a ⟨cid, voter, uname, vid1, t1⟩ c
          hfind hvoted0 hNv))
    | some N =>
      by_cases hcapb : N ≤ a.getUserVoteCount voter
      · have herr1 := voteComment_limit_eq a ⟨cid, voter, uname, vid1, t1⟩ c N hfind
          hvoted0 hNv hcapb
        have herr2 := voteComment_limit_eq a ⟨cid, voter, uname, vid2, t2⟩ c N hfind
          hvoted0 hNv hcapb
        refine ⟨c, ?_, rfl, rfl, rfl⟩
        rw [voteStep_eq_of_error herr1, voteStep_eq_of_error herr2]
        exact hfind
      · exact toggle_add_then_remove a cid voter uname vid1 vid2 t1 t2 c l₁ l₂ hl h1 h2
          hcount hvoted0
          (voteStep_eq_of_ok (voteComment_push_some_eq a ⟨cid, voter, uname, vid1, t1⟩ c N
            hfind hvoted0 hNv hcapb))

/-- C2 witness: the amended toggle law applied to exActC2 (bob toggles
his vote off and on again). -/
theorem vote_toggle_law_witness :
    ∃ c2, ((voteStep (voteStep exActC2 ⟨"c1", "bob", "Bob", "v1", 10⟩)
              ⟨"c1", "bob", "Bob", "v2", 20⟩).comments.find? (fun x => x.id == "c1")) = some c2
      ∧ c2.voteCount = exCommentC2.voteCount
      ∧ c2.votes.filter (fun v => !(v.userId == "bob"))
          = exCommentC2.votes.filter (fun v => !(v.userId == "bob"))
      ∧ (c2.votes.any (fun v => v.userId == "bob"))
          = (exCommentC2.votes.any (fun v => v.userId == "bob")) :=
  vote_toggle_law exActC2 "c1" "bob" "Bob" "v1" "v2" 10 20 exCommentC2
    (by decide) (by decide) (by decide) (fun N h => Option.noConfusion h)

/-! ### C6: connection capacity governor (websocket-server.js lines 300-321, 482-484) -/

/-- Capacity signals emitted to a connecting socket. -/
inductive Signal
  | connectionRejected (sid : String) (reason : String)
  | capacityWarning (sid : String)
deriving DecidableEq, Repr

/-- Process state of the governor: the connectionCount counter (an
integer, as in the source, so that non-negativity is a theorem and not
a typing artifact), the set of admitted sockets that still carry a
registered disconnect handler, and the emitted signals. -/
structure GovState where
  connectionCount : Int
  admitted : List String
  signals : List Signal
deriving DecidableEq, Repr

def initGov : GovState := { connectionCount := 0, admitted := [], signals := [] }

/-- The connection callback (lines 300-321): at capacity the socket is
sent connection_rejected with reason capacity_full and closed before
any event handler is registered on it; below capacity the counter is
incremented, the socket is registered, and a capacity_warning is sent
once the counter reaches the soft limit. -/
def connectStep (maxConnections softLimit : Nat) (s : GovState) (sid : String) : GovState :=
  if (maxConnections : Int) ≤ s.connectionCount then
    { s with signals := s.signals ++ [.connectionRejected sid "capacity_full"] }
  else if (softLimit : Int) ≤ s.connectionCount + 1 then
    { s with connectionCount := s.connectionCount + 1,
             admitted := s.admitted ++ [sid],
             signals := s.signals ++ [.capacityWarning sid] }
  else
    { s with connectionCount := s.connectionCount + 1,
             admitted := s.admitted ++ [sid] }

/-- The disconnect handler (lines 482-484) decrements the counter.  The
handler is registered only on admitted sockets (a rejected connection
returns before socket.on is reached) and the transport fires it at most
once per socket; membership in admitted models the still-registered
handler, consumed when it fires. -/
def disconnectStep (s : GovState) (sid : String) : GovState :=
  if s.admitted.contains sid then
    { s with connectionCount := s.connectionCount - 1, admitted := s.admitted.erase sid }
  else s

inductive ConnEvent
  | connect (sid : String)
  | disconnect (sid : String)
deriving DecidableEq, Repr

def connStep (maxConnections softLimit : Nat) (s : GovState) : ConnEvent → GovState
  | .connect sid => connectStep maxConnections softLimit s sid
  | .disconnect sid => disconnectStep s sid

def runConn (maxConnections softLimit : Nat) (events : List ConnEvent) : GovState :=
  events.foldl (connStep maxConnections softLimit) initGov

theorem connStep_inv (maxConnections softLimit : Nat) (s : GovState) (e : ConnEvent)
    (h1 : s.connectionCount = (s.admitted.length : Int))
    (h2 : s.admitted.length ≤ maxConnections) :
    (connStep maxConnections softLimit s e).connectionCount
        = ((connStep maxConnections softLimit s e).admitted.length : Int)
    ∧ (connStep maxConnections softLimit s e).admitted.length ≤ maxConnections := by
  cases e with
  | connect sid =>
    simp only [connStep]
    unfold connectStep
    by_cases hcap : (maxConnections : Int) ≤ s.connectionCount
    · rw [if_pos hcap]
      exact ⟨h1, h2⟩
    · rw [if_neg hcap]
      by_cases hsoft : (softLimit : Int) ≤ s.connectionCount + 1
      · rw [if_pos hsoft]
        constructor
        · simp only [List.length_append, List.length_cons, List.length_nil]
          rw [h1]
          push_cast
          omega
        · simp only [List.length_append, List.length_cons, List.length_nil]
          omega
      · rw [if_neg hsoft]
        constructor
        · simp only [List.length_append, List.length_cons, List.length_nil]
          rw [h1]
          push_cast
          omega
        · simp only [List.length_append, List.length_cons, List.length_nil]
          omega
  | disconnect sid =>
    simp only [connStep]
    unfold disconnectStep
    by_cases hmem : s.admitted.contains sid
    · rw [if_pos hmem]
      have hm : sid ∈ s.admitted := by simpa using hmem
      have hlen := List.length_erase_of_mem hm
      have hpos := List.length_pos_of_mem hm
      constructor
      · simp only [hlen]
        rw [h1]
        omega
      · simp only [hlen]
        omega
    · rw [if_neg hmem]
      exact ⟨h1, h2⟩

theorem runConn_inv (maxConnections softLimit : Nat) (events : List ConnEvent) :
    (runConn maxConnections softLimit events).connectionCount
        = ((runConn maxConnections softLimit events).admitted.length : Int)
    ∧ (runConn maxConnections softLimit events).admitted.length ≤ maxConnections := by
  suffices h : ∀ (l : List ConnEvent) (s : GovState),
      s.connectionCount = (s.admitted.length : Int) →
      s.admitted.length ≤ maxConnections →
      (l.foldl (connStep maxConnections softLimit) s).connectionCount
          = ((l.foldl (connStep maxConnections softLimit) s).admitted.length : Int)
        ∧ (l.foldl (connStep maxConnections softLimit) s).admitted.length ≤ maxConnections by
    exact h events initGov rfl (by simp [initGov])
  intro l
  induction l with
  | nil => exact fun s g1 g2 => ⟨g1, g2⟩
  | cons e rest ih =>
    intro s g1 g2
    obtain ⟨k1, k2⟩ := connStep_inv maxConnections softLimit s e g1 g2
    exact ih _ k1 k2

/-- C6: starting from the initial state, after any sequence of
connection and disconnect events the counter stays within 0 and the
ceiling; and whenever the counter sits at the ceiling, a further
connection attempt emits connection_rejected with reason capacity_full,
is not admitted, and leaves the counter unchanged. -/
theorem capacity_law (maxConnections softLimit : Nat) (events : List ConnEvent) :
    (0 ≤ (runConn maxConnections softLimit events).connectionCount
      ∧ (runConn maxConnections softLimit events).connectionCount ≤ (maxConnections : Int))
    ∧ (∀ sid, (runConn maxConnections softLimit events).connectionCount
          = (maxConnections : Int) →
        (connectStep maxConnections softLimit (runConn maxConnections softLimit events)
            sid).connectionCount = (maxConnections : Int)
        ∧ (connectStep maxConnections softLimit (runConn maxConnections softLimit events)
            sid).admitted = (runConn maxConnections softLimit events).admitted
        ∧ (connectStep maxConnections softLimit (runConn maxConnections softLimit events)
            sid).signals = (runConn maxConnections softLimit events).signals ++
              [.connectionRejected sid "capacity_full"]) := by
  obtain ⟨h1, h2⟩ := runConn_inv maxConnections softLimit events
  constructor
  · constructor
    · rw [h1]
      omega
    · rw [h1]
      omega
  · intro sid hfull
    unfold connectStep
    rw [if_pos (le_of_eq hfull.symm)]
    exact ⟨hfull, rfl, rfl⟩

/-- C6 witness: with a ceiling of one connection, one admission fills
the server and the next attempt is rejected without moving the
counter. -/
theorem capacity_law_witness :
    (runConn 1 0 [.connect "a"]).connectionCount = (1 : Int)
    ∧ (connectStep 1 0 (runConn 1 0 [.connect "a"]) "b").connectionCount = (1 : Int)
    ∧ (connectStep 1 0 (runConn 1 0 [.connect "a"]) "b").signals
        = (runConn 1 0 [.connect "a"]).signals ++ [.connectionRejected "b" "capacity_full"] := by
  have h := capacity_law 1 0 [.connect "a"]
  exact ⟨by decide, (h.2 "b" (by decide)).1, (h.2 "b" (by decide)).2.2⟩

/-! ### Server state shared by event handlers and the janitor
(websocket-server.js lines 106-108, 285-297, 324-521) -/

/-- Broadcast events emitted to an activity room. -/
inductive BMsg
  | participantJoined (activityId userId username : String)
  | participantLeft (activityId userId : String)
  | ratingAdded (activityId : String) (r : Rating)
  | commentAdded (activityId : String) (c : Comment)
deriving DecidableEq, Repr

/-- Registry entry of one connection (line 107): the user bound to the
socket once it joins, and the joined activity ids. -/
structure ConnInfo where
  userId : Option String
  activityIds : List String
deriving DecidableEq, Repr

/-- Process state touched by the websocket handlers: the in-flight
operation key set, the connection registry, the activity room
membership map (the activities map of line 108), the persistent store
keyed by activityId, the mongo connectivity flag read by
safeDbOperation, and the log of emitted broadcasts. -/
structure WsState where
  ops : List String
  connections : List (String × ConnInfo)
  rooms : List (String × List String)
  store : List (String × Activity)
  dbConnected : Bool
  broadcasts : List BMsg
deriving DecidableEq, Repr

/-- Activity.findById against the store. -/
def storeFind (store : List (String × Activity)) (aid : String) : Option Activity :=
  (store.find? (fun e => e.fst == aid)).map (fun e => e.snd)

/-- Remove a user from an activity room entry and drop the entry once
empty — the inline pattern of lines 388-393, 493-498 and 141-148. -/
def roomsRemoveUser (rooms : List (String × List String)) (aid uid : String) :
    List (String × List String) :=
  match rooms.find? (fun e => e.fst == aid) with
  | none => rooms
  | some _ =>
    let rooms2 := updateFirst (fun e => e.fst == aid)
      (fun e => (e.fst, e.snd.erase uid)) rooms
    match rooms2.find? (fun e => e.fst == aid) with
    | some e2 => if e2.snd.isEmpty then rooms2.filter (fun x => !(x.fst == aid)) else rooms2
    | none => rooms2

/-! ### C7: deduplicated leave (websocket-server.js lines 372-415) -/

def leaveKey (activityId userId : String) : String :=
  "leave_" ++ activityId ++ "_" ++ userId

/-- The try-block of the leave_activity handler (lines 380-409): drop
the activity from the connection registry entry, drop the user from the
room (pruning an emptied room), clear the participant connectivity flag
in the store when mongo is connected (safeDbOperation skips the write
otherwise and swallows any error), then broadcast participant_left. -/
def leaveBody (socketId activityId userId : String) (s : WsState) : WsState :=
  let connections2 := updateFirst (fun e => e.fst == socketId)
    (fun e => (e.fst, { e.snd with activityIds := e.snd.activityIds.erase activityId }))
    s.connections
  let rooms2 := roomsRemoveUser s.rooms activityId userId
  let store2 :=
    if s.dbConnected then
      updateFirst (fun e => e.fst == activityId)
        (fun e => (e.fst, e.snd.updateParticipantConnection userId false)) s.store
    else s.store
  { s with connections := connections2, rooms := rooms2, store := store2,
           broadcasts := s.broadcasts ++ [.participantLeft activityId userId] }

/-- The in-flight operation guard of the handler (lines 373-378 and
410-414): a duplicate received while the key is set returns at once;
otherwise the key is set, the body runs (the catch block only logs),
and the finally block always removes the key. -/
def withOpKey (key : String) (body : WsState → WsState × Bool) (s : WsState) : WsState :=
  if s.ops.contains key then s
  else
    let s1 := { s with ops := key :: s.ops }
    let r := body s1
    { r.1 with ops := r.1.ops.erase key }

def leaveHandler (socketId activityId userId : String) (s : WsState) : WsState :=
  withOpKey (leaveKey activityId userId)
    (fun t => (leaveBody socketId activityId userId t, false)) s

/-- updateParticipantConnection rewrites the flag on the first matching
participant record. -/
theorem updateParticipantConnection_find (act : Activity) (userId : String) (b : Bool)
    (p : Participant)
    (hfind : act.participants.find? (fun q => q.id == userId) = some p) :
    (act.updateParticipantConnection userId b).participants.find? (fun q => q.id == userId)
      = some { p with isConnected := b } := by
  have hany := any_eq_true_of_find?_eq_some hfind
  obtain ⟨l₁, l₂, hl, h1, h2, h3⟩ := find?_decomp (fun q : Participant => q.id == userId)
    (fun q : Participant => { q with isConnected := b }) hfind
  rw [Activity.updateParticipantConnection, if_pos hany]
  show (updateFirst (fun q => q.id == userId)
    (fun q => { q with isConnected := b }) act.participants).find?
      (fun q => q.id == userId) = _
  rw [h3]
  exact find?_append_cons_pos l₂ h1 h2

/-- C7: a leave_activity event received while the operation key is set
is dropped with no effect at all; an executed leave appends exactly one
participant_left broadcast, leaves the participant record
disconnected (when mongo is connected and the activity and participant
exist), and clears the key again; and the key is cleared on every
execution path of the guard, for any body, success or failure. -/
theorem leave_idempotent_law (socketId activityId userId : String) (s : WsState) :
    (s.ops.contains (leaveKey activityId userId) = true →
      leaveHandler socketId activityId userId s = s)
    ∧ (s.ops.contains (leaveKey activityId userId) = false →
        (leaveHandler socketId activityId userId s).broadcasts
            = s.broadcasts ++ [.participantLeft activityId userId]
        ∧ (leaveHandler socketId activityId userId s).ops.contains
            (leaveKey activityId userId) = false
        ∧ (∀ act p, s.dbConnected = true →
            storeFind s.store activityId = some act →
            act.participants.find? (fun q => q.id == userId) = some p →
            ∃ act2, storeFind (leaveHandler socketId activityId userId s).store activityId
                = some act2
              ∧ act2.participants.find? (fun q => q.id == userId)
                = some { p with isConnected := false }))
    ∧ (∀ body : WsState → WsState × Bool, (∀ t, (body t).1.ops = t.ops) →
        s.ops.contains (leaveKey activityId userId) = false →
        (withOpKey (leaveKey activityId userId) body s).ops.contains
          (leaveKey activityId userId) = false) := by
  refine ⟨?_, ?_, ?_⟩
  · intro h
    unfold leaveHandler withOpKey
    rw [if_pos h]
  · intro h
    have hops : (leaveHandler socketId activityId userId s).ops = s.ops := by
      unfold leaveHandler withOpKey
      rw [if_neg (by rw [h]; exact Bool.false_ne_true)]
      show ((leaveBody socketId activityId userId
        { s with ops := leaveKey activityId userId :: s.ops }).ops).erase
          (leaveKey activityId userId) = s.ops
      unfold leaveBody
      exact List.erase_cons_head _ _
    refine ⟨?_, ?_, ?_⟩
    · unfold leaveHandler withOpKey
      rw [if_neg (by rw [h]; exact Bool.false_ne_true)]
      rfl
    · rw [hops, h]
    · intro act p hdb hsf hpf
      obtain ⟨e, hefind, hesnd⟩ : ∃ e, s.store.find? (fun x => x.fst == activityId) = some e
          ∧ e.snd = act := by
        unfold storeFind at hsf
        cases hx : s.store.find? (fun x => x.fst == activityId) with
        | none => rw [hx] at hsf; exact absurd hsf (by simp)
        | some e => rw [hx] at hsf; exact ⟨e, rfl, by injection hsf⟩
      obtain ⟨l₁, l₂, hl, h1, h2, h3⟩ := find?_decomp
        (fun x : String × Activity => x.fst == activityId)
        (fun x : String × Activity =>
          (x.fst, x.snd.updateParticipantConnection userId false)) hefind
      refine ⟨act.updateParticipantConnection userId false, ?_, ?_⟩
      · have hstore : (leaveHandler socketId activityId userId s).store
            = updateFirst (fun x : String × Activity => x.fst == activityId)
              (fun x : String × Activity =>
                (x.fst, x.snd.updateParticipantConnection userId false)) s.store := by
          unfold leaveHandler withOpKey
          rw [if_neg (by rw [h]; exact Bool.false_ne_true)]
          show (leaveBody socketId activityId userId
            { s with ops := leaveKey activityId userId :: s.ops }).store = _
          unfold leaveBody
          show (if s.dbConnected then _ else _) = _
          rw [if_pos hdb]
        rw [hstore, h3]
        unfold storeFind
        have h2b : (((e.1, e.2.updateParticipantConnection userId false) :
            String × Activity).fst == activityId) = true := h2
        rw [find?_append_cons_pos l₂ h1 h2b]
        simp [hesnd]
      · exact updateParticipantConnection_find act userId false p hpf
  · intro body hbody h
    have hops2 : (withOpKey (leaveKey activityId userId) body s).ops = s.ops := by
      unfold withOpKey
      rw [if_neg (by rw [h]; exact Bool.false_ne_true)]
      show ((body { s with ops := leaveKey activityId userId :: s.ops }).1.ops).erase
          (leaveKey activityId userId) = s.ops
      rw [hbody]
      exact List.erase_cons_head _ _
    rw [hops2]
    exact h

/-- Activity with one connected participant, used by the leave
witness. -/
def exActC7 : Activity :=
  { id := "a1", votesPerUser := none, maxEntries := 1,
    participants := [{ id := "u1", username := "Uma", objectName := none,
                       isConnected := true, hasSubmitted := false, joinedAt := 0 }],
    ratings := [], comments := [] }

def exS7 : WsState :=
  { ops := [], connections := [("s1", { userId := some "u1", activityIds := ["a1"] })],
    rooms := [("a1", ["u1"])], store := [("a1", exActC7)],
    dbConnected := true, broadcasts := [] }

/-- C7 witness: an executed leave on exS7 broadcasts once, clears the
key, and disconnects the stored participant. -/
theorem leave_idempotent_law_witness :
    (leaveHandler "s1" "a1" "u1" exS7).broadcasts
        = exS7.broadcasts ++ [.participantLeft "a1" "u1"]
    ∧ (leaveHandler "s1" "a1" "u1" exS7).ops.contains (leaveKey "a1" "u1") = false
    ∧ ∃ act2, storeFind (leaveHandler "s1" "a1" "u1" exS7).store "a1" = some act2
        ∧ act2.participants.find? (fun q => q.id == "u1")
          = some { id := "u1", username := "Uma", objectName := none,
                   isConnected := false, hasSubmitted := false, joinedAt := 0 } := by
  have h0 : exS7.ops.contains (leaveKey "a1" "u1") = false := by decide
  have h := (leave_idempotent_law "s1" "a1" "u1" exS7).2.1 h0
  refine ⟨h.1, h.2.1, ?_⟩
  exact h.2.2 exActC7
    { id := "u1", username := "Uma", objectName := none,
      isConnected := true, hasSubmitted := false, joinedAt := 0 }
    rfl (by decide) (by decide)

/-! ### C8: broadcast gating by the store write
(websocket-server.js lines 324-369, 418-447, 450-479) -/

/-- The join_activity handler (lines 324-369).  Once past the
duplicate-join guard it updates registry and room, attempts the store
write through safeDbOperation — which silently skips it when mongo is
down and swallows any error (writeOk = false models a failed write) —
and then broadcasts participant_joined unconditionally. -/
def joinHandler (socketId activityId userId username : String) (now : Nat)
    (writeOk : Bool) (s : WsState) : WsState :=
  let already : Bool :=
    match s.connections.find? (fun e => e.fst == socketId) with
    | some e => e.snd.activityIds.contains activityId
    | none => false
  match already with
  | true => s
  | false =>
    let connections2 := updateFirst (fun e => e.fst == socketId)
      (fun e => (e.fst, { userId := some userId,
                          activityIds := e.snd.activityIds ++ [activityId] }))
      s.connections
    let rooms2 :=
      if s.rooms.any (fun e => e.fst == activityId) then
        updateFirst (fun e => e.fst == activityId)
          (fun e => (e.fst, if e.snd.contains userId then e.snd else e.snd ++ [userId]))
          s.rooms
      else s.rooms ++ [(activityId, [userId])]
    let store2 :=
      if s.dbConnected && writeOk then
        updateFirst (fun e => e.fst == activityId)
          (fun e => (e.fst, e.snd.addParticipant userId username now)) s.store
      else s.store
    { s with connections := connections2, rooms := rooms2, store := store2,
             broadcasts := s.broadcasts ++ [.participantJoined activityId userId username] }

/-- The submit_rating handler (lines 418-447).  newRating is assigned
only after the awaited addRating succeeds, and is looked up on the
stale pre-write document; the broadcast fires only when newRating is
non-null, so a skipped or failed write never broadcasts. -/
def submitRatingHandler (activityId userId : String) (pos : Position)
    (ratingId : String) (now : Nat) (writeOk : Bool) (s : WsState) : WsState :=
  let newRating : Option Rating :=
    if s.dbConnected then
      match storeFind s.store activityId with
      | some act =>
        if act.participants.any (fun p => p.id == userId) then
          if writeOk then act.ratings.find? (fun r => r.userId == userId) else none
        else none
      | none => none
    else none
  let store2 :=
    if s.dbConnected && writeOk then
      updateFirst (fun e => e.fst == activityId)
        (fun e =>
          if e.snd.participants.any (fun p => p.id == userId) then
            (e.fst, e.snd.addRatingApplied userId
              ((e.snd.participants.find? (fun p => p.id == userId)).elim ""
                (fun p => p.username))
              pos "" 1 ratingId now)
          else e) s.store
    else s.store
  { s with store := store2,
           broadcasts := s.broadcasts ++
             (match newRating with
              | some r => [.ratingAdded activityId r]
              | none => []) }

/-- The submit_comment handler (lines 450-479).  addComment rewrites the
in-memory document before save; newComment is assigned only after the
awaited save succeeds and is found on the rewritten document. -/
def submitCommentHandler (activityId userId text : String)
    (commentId : String) (now : Nat) (writeOk : Bool) (s : WsState) : WsState :=
  let newComment : Option Comment :=
    if s.dbConnected then
      match storeFind s.store activityId with
      | some act =>
        if act.participants.any (fun p => p.id == userId) then
          if writeOk then
            (act.addComment userId
              ((act.participants.find? (fun p => p.id == userId)).elim ""
                (fun p => p.username))
              text "" 1 commentId now).comments.find? (fun c => c.userId == userId)
          else none
        else none
      | none => none
    else none
  let store2 :=
    if s.dbConnected && writeOk then
      updateFirst (fun e => e.fst == activityId)
        (fun e =>
          if e.snd.participants.any (fun p => p.id == userId) then
            (e.fst, e.snd.addComment userId
              ((e.snd.participants.find? (fun p => p.id == userId)).elim ""
                (fun p => p.username))
              text "" 1 commentId now)
          else e) s.store
    else s.store
  { s with store := store2,
           broadcasts := s.broadcasts ++
             (match newComment with
              | some c => [.commentAdded activityId c]
              | none => []) }

/-- C8 counterexample: the claim fails for join_activity.  With mongo
disconnected the store write is skipped, yet the handler still
broadcasts participant_joined. -/
def exS8 : WsState :=
  { ops := [], connections := [], rooms := [], store := [],
    dbConnected := false, broadcasts := [] }

theorem broadcast_unconditional_join_counterexample :
    exS8.dbConnected = false
    ∧ (joinHandler "s1" "a1" "u1" "Uma" 0 false exS8).store = exS8.store
    ∧ (joinHandler "s1" "a1" "u1" "Uma" 0 false exS8).broadcasts
        = [.participantJoined "a1" "u1" "Uma"] := by
  decide

/-- C8 (amended): rating_added and comment_added are emitted only when
the store write path completed — a write that threw, or was skipped
because mongo was down, broadcasts nothing — whereas join_activity
broadcasts participant_joined unconditionally once past its
duplicate-join guard, even when its store write was skipped or
failed. -/
theorem broadcast_gating_law :
    (∀ (activityId userId : String) (pos : Position) (rid : String) (now : Nat) (s : WsState),
      (submitRatingHandler activityId userId pos rid now false s).broadcasts = s.broadcasts)
    ∧ (∀ (activityId userId : String) (pos : Position) (rid : String) (now : Nat)
        (w : Bool) (s : WsState),
        (submitRatingHandler activityId userId pos rid now w
          { s with dbConnected := false }).broadcasts = s.broadcasts)
    ∧ (∀ (activityId userId text cid : String) (now : Nat) (s : WsState),
        (submitCommentHandler activityId userId text cid now false s).broadcasts
          = s.broadcasts)
    ∧ (∀ (activityId userId text cid : String) (now : Nat) (w : Bool) (s : WsState),
        (submitCommentHandler activityId userId text cid now w
          { s with dbConnected := false }).broadcasts = s.broadcasts)
    ∧ (∀ (socketId activityId userId username : String) (now : Nat) (w : Bool) (s : WsState),
        (joinHandler socketId activityId userId username now w
          { s with dbConnected := false, connections := [] }).broadcasts
          = s.broadcasts ++ [.participantJoined activityId userId username]) := by
  refine ⟨?_, ?_, ?_, ?_, ?_⟩
  · intro activityId userId pos rid now s
    unfold submitRatingHandler
    cases hdb : s.dbConnected with
    | false => simp
    | true =>
      cases hsf : storeFind s.store activityId with
      | none => simp
      | some act =>
        by_cases hany : (act.participants.any (fun p => p.id == userId)) = true
        · simp [hany]
        · simp [Bool.eq_false_iff.mpr hany]
  · intro activityId userId pos rid now w s
    unfold submitRatingHandler
    simp
  · intro activityId userId text cid now s
    unfold submitCommentHandler
    cases hdb : s.dbConnected with
    | false => simp
    | true =>
      cases hsf : storeFind s.store activityId with
      | none => simp
      | some act =>
        by_cases hany : (act.participants.any (fun p => p.id == userId)) = true
        · simp [hany]
        · simp [Bool.eq_false_iff.mpr hany]
  · intro activityId userId text cid now w s
    unfold submitCommentHandler
    simp
  · intro socketId activityId userId username now w s
    rfl

/-! ### C9: the addRating retry loop (Activity.js lines 428-518) -/

/-- Outcome of one attempt of the loop body: the whole body succeeds
returning the final document, or throws an optimistic-concurrency
conflict (VersionError or duplicate-key code 11000), or throws some
other error. -/
inductive StoreResult
  | ok (a : Activity)
  | conflict
  | otherError
deriving DecidableEq, Repr

/-- Observable outcome of addRating: success with the final document,
a rethrown caught error (isConflict records whether it was the
conflict kind), or the dedicated retry-exhausted throw of line 517.
The sleeps list records the backoff waits in order. -/
inductive RetryOutcome
  | success (a : Activity) (sleeps : List Nat)
  | failure (isConflict : Bool) (sleeps : List Nat)
  | exhausted (sleeps : List Nat)
deriving DecidableEq, Repr

def maxRetries : Nat := 5

/-- The while loop of addRating (lines 432-515).  The structural fuel
argument equals maxRetries - retries throughout a run, so reaching
fuel 0 is exactly the loop condition retries < maxRetries turning
false, upon which line 517 throws the retry-exhausted error.  On a
conflict with retries < maxRetries - 1 the loop increments retries,
sleeps 50 + retries * 100 milliseconds (with the incremented value,
line 510) and retries; any other caught error — including a conflict
on the final attempt — is rethrown raw (line 513). -/
def retryGo (attempts : Nat → StoreResult) :
    Nat → Nat → List Nat → RetryOutcome
  | 0, _, sleeps => .exhausted sleeps
  | fuel + 1, retries, sleeps =>
    if retries < maxRetries then
      match attempts retries with
      | .ok a => .success a sleeps
      | .conflict =>
        if retries < maxRetries - 1 then
          retryGo attempts fuel (retries + 1) (sleeps ++ [50 + (retries + 1) * 100])
        else .failure true sleeps
      | .otherError => .failure false sleeps
    else .exhausted sleeps

def addRatingRetry (attempts : Nat → StoreResult) : RetryOutcome :=
  retryGo attempts maxRetries 0 []

def isExhausted : RetryOutcome → Bool
  | .exhausted _ => true
  | _ => false

theorem retryGo_not_exhausted (attempts : Nat → StoreResult) :
    ∀ (fuel retries : Nat) (sleeps : List Nat), fuel + retries = maxRetries →
      retries < maxRetries →
      isExhausted (retryGo attempts fuel retries sleeps) = false := by
  intro fuel
  induction fuel with
  | zero =>
    intro retries sleeps h hr
    omega
  | succ n ih =>
    intro retries sleeps h hr
    show isExhausted (retryGo attempts (n + 1) retries sleeps) = false
    rw [retryGo, if_pos hr]
    cases hatt : attempts retries with
    | ok a => rfl
    | otherError => rfl
    | conflict =>
      by_cases hlt : retries < maxRetries - 1
      · rw [if_pos hlt]
        exact ih (retries + 1) _ (by omega) (by unfold maxRetries at hlt ⊢; omega)
      · rw [if_neg hlt]
        rfl

/-- C9: behaviour of the retry loop at its failure inputs.  A run in
which the store reports a conflict on every attempt performs 5 attempts
(4 retries) sleeping 150, 250, 350 and 450 ms, and then rethrows the
raw conflict error of the final attempt; a non-conflict error
propagates immediately with no retry; and the dedicated
retry-exhausted (WriteConflict) throw of line 517 is unreachable for
every attempt behaviour. -/
theorem retry_exhaustion_behavior :
    addRatingRetry (fun _ => .conflict) = .failure true [150, 250, 350, 450]
    ∧ addRatingRetry (fun _ => .otherError) = .failure false []
    ∧ (∀ attempts : Nat → StoreResult, isExhausted (addRatingRetry attempts) = false) := by
  refine ⟨rfl, rfl, ?_⟩
  intro attempts
  exact retryGo_not_exhausted attempts maxRetries 0 [] rfl (by decide)

/-! ### C10: the stale-connection janitor (websocket-server.js lines 132-164) -/

/-- Process state seen by the janitor: the registry, the room map, the
live transport socket set (io.sockets.sockets), the store and the
broadcast log. -/
structure JanState where
  connections : List (String × ConnInfo)
  rooms : List (String × List String)
  live : List String
  store : List (String × Activity)
  broadcasts : List BMsg
deriving DecidableEq, Repr

/-- The first loop of the reconciliation interval (lines 135-151): every
registry connection whose socket id is not in the live set is dropped
from the registry, and — when it carried a userId — the user is removed
from each of its activity rooms, pruning rooms emptied on the spot. -/
def janitorScan (live : List String) :
    List (String × ConnInfo) → List (String × List String)
      → (List (String × ConnInfo) × List (String × List String))
  | [], rooms => ([], rooms)
  | e :: rest, rooms =>
    match live.contains e.fst with
    | true =>
      let r := janitorScan live rest rooms
      (e :: r.1, r.2)
    | false =>
      let rooms2 :=
        match e.snd.userId with
        | some uid => e.snd.activityIds.foldl (fun acc aid => roomsRemoveUser acc aid uid) rooms
        | none => rooms
      janitorScan live rest rooms2

/-- The reconciliation interval (lines 132-164): the scan above followed
by the second loop (lines 153-159) deleting every room entry left with
zero members.  It touches neither the store nor the broadcaster. -/
def janitor (s : JanState) : JanState :=
  let r := janitorScan s.live s.connections s.rooms
  { s with connections := r.1, rooms := r.2.filter (fun e => !(e.snd.isEmpty)) }

theorem janitorScan_fst (live : List String) :
    ∀ (conns : List (String × ConnInfo)) (rooms : List (String × List String)),
      (janitorScan live conns rooms).1 = conns.filter (fun e => live.contains e.fst) := by
  intro conns
  induction conns with
  | nil => intro rooms; rfl
  | cons e rest ih =>
    intro rooms
    cases hlive : live.contains e.fst with
    | true =>
      rw [janitorScan, hlive]
      rw [List.filter_cons, if_pos hlive]
      show e :: (janitorScan live rest rooms).1 = _
      rw [ih rooms]
    | false =>
      rw [janitorScan, hlive]
      rw [List.filter_cons, if_neg (by rw [hlive]; exact Bool.false_ne_true)]
      exact ih _

theorem all_filter {α : Type} (p : α → Bool) (l : List α) :
    ((l.filter p).all p) = true := by
  rw [List.all_eq_true]
  intro x hx
  exact (List.mem_filter.mp hx).2

/-- Elements of updateFirst are original elements or the image of an
original element. -/
theorem mem_updateFirst {α : Type} {p : α → Bool} {f : α → α} {l : List α} {y : α}
    (h : y ∈ updateFirst p f l) : y ∈ l ∨ ∃ x ∈ l, y = f x := by
  induction l with
  | nil => simp [updateFirst] at h
  | cons a t ih =>
    by_cases hpa : p a
    · simp only [updateFirst, if_pos hpa] at h
      rcases List.mem_cons.mp h with rfl | hy
      · exact Or.inr ⟨a, List.mem_cons_self a t, rfl⟩
      · exact Or.inl (List.mem_cons_of_mem a hy)
    · simp only [updateFirst, if_neg hpa] at h
      rcases List.mem_cons.mp h with rfl | hy
      · exact Or.inl (List.mem_cons_self _ t)
      · rcases ih hy with h1 | ⟨x, hx, rfl⟩
        · exact Or.inl (List.mem_cons_of_mem a h1)
        · exact Or.inr ⟨x, List.mem_cons_of_mem a hx, rfl⟩

/-- When f preserves the predicate, updateFirst maps the found element
through f. -/
theorem find?_updateFirst_self {α : Type} {p : α → Bool} {f : α → α}
    (hpf : ∀ x, p (f x) = p x) (l : List α) :
    (updateFirst p f l).find? p = (l.find? p).map f := by
  induction l with
  | nil => rfl
  | cons a t ih =>
    by_cases hpa : p a
    · simp only [updateFirst, if_pos hpa]
      rw [List.find?_cons_of_pos _ (by rw [hpf]; exact hpa), List.find?_cons_of_pos _ hpa]
      rfl
    · simp only [updateFirst, if_neg hpa]
      rw [List.find?_cons_of_neg _ hpa, List.find?_cons_of_neg _ hpa]
      exact ih

/-- Updating along a predicate disjoint from p does not move the first
p-match. -/
theorem find?_updateFirst_other {α : Type} {p q : α → Bool} {f : α → α}
    (hq : ∀ x, q x = true → p x = false) (hpf : ∀ x, p (f x) = p x) (l : List α) :
    (updateFirst q f l).find? p = l.find? p := by
  induction l with
  | nil => rfl
  | cons a t ih =>
    by_cases hqa : q a
    · simp only [updateFirst, if_pos hqa]
      have hpa : p a = false := hq a hqa
      rw [List.find?_cons_of_neg _ (by rw [hpf]; simp [hpa]),
          List.find?_cons_of_neg _ (by simp [hpa])]
    · simp only [updateFirst, if_neg hqa]
      by_cases hpa : p a
      · rw [List.find?_cons_of_pos _ hpa, List.find?_cons_of_pos _ hpa]
      · rw [List.find?_cons_of_neg _ hpa, List.find?_cons_of_neg _ hpa]
        exact ih

/-- Filtering by a predicate that keeps every p-element does not move
the first p-match. -/
theorem find?_filter_keep {α : Type} {p keep : α → Bool}
    (h : ∀ x, p x = true → keep x = true) (l : List α) :
    (l.filter keep).find? p = l.find? p := by
  induction l with
  | nil => rfl
  | cons a t ih =>
    by_cases hk : keep a
    · rw [List.filter_cons, if_pos hk]
      by_cases hpa : p a
      · rw [List.find?_cons_of_pos _ hpa, List.find?_cons_of_pos _ hpa]
      · rw [List.find?_cons_of_neg _ hpa, List.find?_cons_of_neg _ hpa]
        exact ih
    · have hpa : p a = false := by
        cases hp : p a with
        | false => rfl
        | true => exact absurd (h a hp) hk
      rw [List.filter_cons, if_neg hk]
      rw [List.find?_cons_of_neg _ (by simp [hpa])]
      exact ih

/-- A filter that keeps the found element keeps it the first p-match. -/
theorem find?_filter_of_found {α : Type} {p keep : α → Bool} {l : List α} {x : α}
    (hfind : l.find? p = some x) (hx : keep x = true) :
    (l.filter keep).find? p = some x := by
  obtain ⟨l₁, l₂, rfl, h1, h2, -⟩ := find?_decomp p id hfind
  rw [List.filter_append, List.filter_cons, if_pos hx]
  exact find?_append_cons_pos _ (fun y hy => h1 y (List.mem_filter.mp hy).1) h2

theorem find?_filter_none {α : Type} {p keep : α → Bool} {l : List α}
    (hfind : l.find? p = none) :
    (l.filter keep).find? p = none := by
  rw [List.find?_eq_none] at hfind ⊢
  intro x hx
  exact hfind x (List.mem_filter.mp hx).1

theorem find?_filter_not {α : Type} (p : α → Bool) (l : List α) :
    (l.filter (fun x => !(p x))).find? p = none := by
  rw [List.find?_eq_none]
  intro x hx
  have h2 := (List.mem_filter.mp hx).2
  simp at h2
  simp [h2]

/-- The room entry for an activity, as the JS Map.get. -/
def roomMembers (rooms : List (String × List String)) (aid : String) :
    Option (List String) :=
  (rooms.find? (fun e => e.fst == aid)).map (fun e => e.snd)

/-- The user no longer sits in the activity room: either the map has no
entry for the activity, or its entry misses the user and is nonempty
(an emptied entry is deleted on the spot, so it cannot be resurrected
by the final empty-entry sweep). -/
def roomClear (rooms : List (String × List String)) (aid uid : String) : Prop :=
  match rooms.find? (fun e => e.fst == aid) with
  | none => True
  | some e => uid ∉ e.snd ∧ e.snd ≠ []

theorem roomsRemoveUser_eq_none (rooms : List (String × List String)) (aid uid : String)
    (hf : rooms.find? (fun e => e.fst == aid) = none) :
    roomsRemoveUser rooms aid uid = rooms := by
  unfold roomsRemoveUser
  simp only [hf]

theorem roomsRemoveUser_eq_some (rooms : List (String × List String)) (aid uid : String)
    (e : String × List String)
    (hf : rooms.find? (fun x => x.fst == aid) = some e) :
    roomsRemoveUser rooms aid uid
      = if (e.snd.erase uid).isEmpty then
          (updateFirst (fun x : String × List String => x.fst == aid)
            (fun x => (x.fst, x.snd.erase uid)) rooms).filter (fun x => !(x.fst == aid))
        else
          updateFirst (fun x : String × List String => x.fst == aid)
            (fun x => (x.fst, x.snd.erase uid)) rooms := by
  have hself : (updateFirst (fun x : String × List String => x.fst == aid)
      (fun x => (x.fst, x.snd.erase uid)) rooms).find? (fun x => x.fst == aid)
      = (rooms.find? (fun x => x.fst == aid)).map (fun x => (x.fst, x.snd.erase uid)) :=
    @find?_updateFirst_self (String × List String) (fun x => x.fst == aid)
      (fun x => (x.fst, x.snd.erase uid)) (fun _ => rfl) rooms
  unfold roomsRemoveUser
  simp only [hf, hself, Option.map_some']

/-- roomsRemoveUser keeps every room member list duplicate-free (room
member lists model JS Sets). -/
theorem roomsRemoveUser_nodup (rooms : List (String × List String)) (aid uid : String)
    (h : ∀ r ∈ rooms, r.snd.Nodup) :
    ∀ r ∈ roomsRemoveUser rooms aid uid, r.snd.Nodup := by
  have hupd : ∀ r ∈ updateFirst (fun x : String × List String => x.fst == aid)
      (fun x => (x.fst, x.snd.erase uid)) rooms, r.snd.Nodup := by
    intro r hr
    rcases mem_updateFirst hr with h1 | ⟨x, hx, rfl⟩
    · exact h r h1
    · exact (h x hx).erase uid
  cases hf : rooms.find? (fun e => e.fst == aid) with
  | none =>
    rw [roomsRemoveUser_eq_none rooms aid uid hf]
    exact h
  | some e =>
    rw [roomsRemoveUser_eq_some rooms aid uid e hf]
    by_cases hemp : (e.snd.erase uid).isEmpty
    · rw [if_pos hemp]
      intro r hr
      exact hupd r (List.mem_filter.mp hr).1
    · rw [if_neg hemp]
      exact hupd

/-- Establishment: running roomsRemoveUser for (aid, uid) clears the
user from the room. -/
theorem roomsRemoveUser_clear (rooms : List (String × List String)) (aid uid : String)
    (hnd : ∀ r ∈ rooms, r.snd.Nodup) :
    roomClear (roomsRemoveUser rooms aid uid) aid uid := by
  cases hf : rooms.find? (fun e => e.fst == aid) with
  | none =>
    rw [roomsRemoveUser_eq_none rooms aid uid hf]
    unfold roomClear
    simp [hf]
  | some e =>
    have hmem : e ∈ rooms := List.mem_of_find?_eq_some hf
    have hnm : uid ∉ e.snd.erase uid := by
      intro hmem2
      exact absurd ((List.Nodup.mem_erase_iff (hnd e hmem)).mp hmem2).1 (by simp)
    rw [roomsRemoveUser_eq_some rooms aid uid e hf]
    by_cases hemp : (e.snd.erase uid).isEmpty
    · rw [if_pos hemp]
      unfold roomClear
      rw [find?_filter_not]
      exact trivial
    · rw [if_neg hemp]
      unfold roomClear
      have hself : (updateFirst (fun x : String × List String => x.fst == aid)
          (fun x => (x.fst, x.snd.erase uid)) rooms).find? (fun x => x.fst == aid)
          = (rooms.find? (fun x => x.fst == aid)).map (fun x => (x.fst, x.snd.erase uid)) :=
        @find?_updateFirst_self (String × List String) (fun x => x.fst == aid)
          (fun x => (x.fst, x.snd.erase uid)) (fun _ => rfl) rooms
      simp only [hself, hf, Option.map_some']
      refine ⟨hnm, ?_⟩
      intro hnil
      rw [hnil] at hemp
      exact hemp rfl

/-- Preservation: once the user is clear of the room for aid, any later
roomsRemoveUser call — for any activity and any user — keeps it so. -/
theorem roomsRemoveUser_clear_preserve (rooms : List (String × List String))
    (aid uid bid vid : String) (h : roomClear rooms aid uid) :
    roomClear (roomsRemoveUser rooms bid vid) aid uid := by
  by_cases hab : bid = aid
  · subst hab
    cases hf : rooms.find? (fun e => e.fst == bid) with
    | none =>
      rw [roomsRemoveUser_eq_none rooms bid vid hf]
      exact h
    | some e =>
      have h2 : uid ∉ e.snd ∧ e.snd ≠ [] := by
        unfold roomClear at h
        simpa only [hf] using h
      rw [roomsRemoveUser_eq_some rooms bid vid e hf]
      by_cases hemp : (e.snd.erase vid).isEmpty
      · rw [if_pos hemp]
        unfold roomClear
        rw [find?_filter_not]
        exact trivial
      · rw [if_neg hemp]
        unfold roomClear
        have hself : (updateFirst (fun x : String × List String => x.fst == bid)
            (fun x => (x.fst, x.snd.erase vid)) rooms).find? (fun x => x.fst == bid)
            = (rooms.find? (fun x => x.fst == bid)).map (fun x => (x.fst, x.snd.erase vid)) :=
          @find?_updateFirst_self (String × List String) (fun x => x.fst == bid)
            (fun x => (x.fst, x.snd.erase vid)) (fun _ => rfl) rooms
        simp only [hself, hf, Option.map_some']
        refine ⟨fun hmem2 => h2.1 (List.mem_of_mem_erase hmem2), ?_⟩
        intro hnil
        rw [hnil] at hemp
        exact hemp rfl
  · have hq : ∀ x : String × List String, (x.fst == bid) = true → (x.fst == aid) = false := by
      intro x hx
      have hxb : x.fst = bid := by simpa using hx
      rw [hxb]
      exact beq_eq_false_iff_ne.mpr hab
    have hkeep : ∀ x : String × List String,
        (x.fst == aid) = true → (!(x.fst == bid)) = true := by
      intro x hx
      have hxa : x.fst = aid := by simpa using hx
      rw [hxa]
      have hba : (aid == bid) = false := beq_eq_false_iff_ne.mpr (fun hh => hab hh.symm)
      simp [hba]
    have hpres : (roomsRemoveUser rooms bid vid).find? (fun e => e.fst == aid)
        = rooms.find? (fun e => e.fst == aid) := by
      cases hf : rooms.find? (fun e => e.fst == bid) with
      | none => rw [roomsRemoveUser_eq_none rooms bid vid hf]
      | some e =>
        have hupd : (updateFirst (fun x : String × List String => x.fst == bid)
            (fun x => (x.fst, x.snd.erase vid)) rooms).find? (fun e => e.fst == aid)
            = rooms.find? (fun e => e.fst == aid) :=
          @find?_updateFirst_other (String × List String) (fun x => x.fst == aid)
            (fun x => x.fst == bid) (fun x => (x.fst, x.snd.erase vid)) hq
            (fun _ => rfl) rooms
        rw [roomsRemoveUser_eq_some rooms bid vid e hf]
        by_cases hemp : (e.snd.erase vid).isEmpty
        · rw [if_pos hemp, find?_filter_keep hkeep _, hupd]
        · rw [if_neg hemp, hupd]
    unfold roomClear at h ⊢
    rw [hpres]
    exact h

theorem foldl_remove_nodup (u : String) (aids : List String) :
    ∀ rooms : List (String × List String), (∀ r ∈ rooms, r.snd.Nodup) →
      ∀ r ∈ aids.foldl (fun acc aid => roomsRemoveUser acc aid u) rooms, r.snd.Nodup := by
  induction aids with
  | nil => exact fun rooms h => h
  | cons a rest ih =>
    intro rooms h
    rw [List.foldl_cons]
    exact ih _ (roomsRemoveUser_nodup rooms a u h)

theorem foldl_remove_clear_preserve (u : String) (aids : List String) (aid uid : String) :
    ∀ rooms : List (String × List String), roomClear rooms aid uid →
      roomClear (aids.foldl (fun acc a => roomsRemoveUser acc a u) rooms) aid uid := by
  induction aids with
  | nil => exact fun rooms h => h
  | cons a rest ih =>
    intro rooms h
    rw [List.foldl_cons]
    exact ih _ (roomsRemoveUser_clear_preserve rooms aid uid a u h)

/-- Folding roomsRemoveUser over a list of activity ids containing aid
clears the user from the aid room. -/
theorem foldl_remove_clear (uid : String) (aids : List String) (aid : String)
    (hmem : aid ∈ aids) :
    ∀ rooms : List (String × List String), (∀ r ∈ rooms, r.snd.Nodup) →
      roomClear (aids.foldl (fun acc a => roomsRemoveUser acc a uid) rooms) aid uid := by
  obtain ⟨L1, L2, rfl⟩ := List.append_of_mem hmem
  intro rooms hnd
  rw [List.foldl_append, List.foldl_cons]
  exact foldl_remove_clear_preserve uid L2 aid uid _
    (roomsRemoveUser_clear _ aid uid (foldl_remove_nodup uid L1 rooms hnd))

/-- The scan never re-adds a cleared user to a room. -/
theorem janitorScan_clear_preserve (live : List String) :
    ∀ (conns : List (String × ConnInfo)) (rooms : List (String × List String))
      (aid uid : String), roomClear rooms aid uid →
      roomClear (janitorScan live conns rooms).2 aid uid := by
  intro conns
  induction conns with
  | nil => exact fun rooms aid uid h => h
  | cons e rest ih =>
    intro rooms aid uid h
    cases hl : live.contains e.fst with
    | true =>
      simp only [janitorScan, hl]
      exact ih rooms aid uid h
    | false =>
      simp only [janitorScan, hl]
      cases hu : e.snd.userId with
      | none =>
        simp only [hu]
        exact ih rooms aid uid h
      | some u2 =>
        simp only [hu]
        exact ih _ aid uid
          (foldl_remove_clear_preserve u2 e.snd.activityIds aid uid rooms h)

/-- For every stale registry connection with a bound user, the scan
clears that user from each room the connection had joined. -/
theorem janitorScan_clear (live : List String) :
    ∀ (conns : List (String × ConnInfo)) (rooms : List (String × List String)),
      (∀ r ∈ rooms, r.snd.Nodup) →
      ∀ (sid : String) (info : ConnInfo) (uid aid : String),
        (sid, info) ∈ conns → live.contains sid = false →
        info.userId = some uid → aid ∈ info.activityIds →
        roomClear (janitorScan live conns rooms).2 aid uid := by
  intro conns
  induction conns with
  | nil =>
    intro rooms hnd sid info uid aid hmem
    exact absurd hmem (List.not_mem_nil _)
  | cons e rest ih =>
    intro rooms hnd sid info uid aid hmem hstale huid haid
    rcases List.mem_cons.mp hmem with heq | hmem2
    · subst heq
      simp only [janitorScan, hstale, huid]
      exact janitorScan_clear_preserve live rest _ aid uid
        (foldl_remove_clear uid info.activityIds aid haid rooms hnd)
    · cases hl : live.contains e.fst with
      | true =>
        simp only [janitorScan, hl]
        exact ih rooms hnd sid info uid aid hmem2 hstale huid haid
      | false =>
        simp only [janitorScan, hl]
        cases hu : e.snd.userId with
        | none =>
          simp only [hu]
          exact ih rooms hnd sid info uid aid hmem2 hstale huid haid
        | some u2 =>
          simp only [hu]
          exact ih _ (foldl_remove_nodup u2 e.snd.activityIds rooms hnd)
            sid info uid aid hmem2 hstale huid haid

/-- C10 (amended): the janitor drops exactly the stale connections from
the registry (preserving live ones in order), removes each stale
connection’s user from the room-membership sets of the activities it
had joined (room member lists model JS Sets, hence the duplicate-free
hypothesis), prunes every emptied room entry, and leaves the store and
the broadcast log untouched — unlike a real disconnect it performs no
participant-connectivity write and emits no participant_left
broadcast. -/
theorem janitor_cleanup_law (s : JanState) :
    (janitor s).broadcasts = s.broadcasts
    ∧ (janitor s).store = s.store
    ∧ (janitor s).connections = s.connections.filter (fun e => s.live.contains e.fst)
    ∧ ((janitor s).rooms.all (fun e => !(e.snd.isEmpty))) = true
    ∧ (∀ (sid : String) (info : ConnInfo) (uid aid : String),
        (sid, info) ∈ s.connections →
        s.live.contains sid = false →
        info.userId = some uid →
        aid ∈ info.activityIds →
        (∀ r ∈ s.rooms, r.snd.Nodup) →
        ∀ members, roomMembers (janitor s).rooms aid = some members →
          uid ∉ members) := by
  refine ⟨rfl, rfl, ?_, ?_, ?_⟩
  · show (janitorScan s.live s.connections s.rooms).1 = _
    exact janitorScan_fst s.live s.connections s.rooms
  · show (((janitorScan s.live s.connections s.rooms).2.filter
      (fun e => !(e.snd.isEmpty))).all (fun e => !(e.snd.isEmpty))) = true
    exact all_filter _ _
  · intro sid info uid aid hmem hstale huid haid hnd members hrm
    have hclear := janitorScan_clear s.live s.connections s.rooms hnd sid info uid aid
      hmem hstale huid haid
    unfold roomClear at hclear
    have hrm2 : (((janitorScan s.live s.connections s.rooms).2.filter
        (fun e => !(e.snd.isEmpty))).find? (fun e => e.fst == aid)).map
          (fun e => e.snd) = some members := hrm
    cases hf : (janitorScan s.live s.connections s.rooms).2.find?
        (fun e => e.fst == aid) with
    | none =>
      rw [find?_filter_none hf] at hrm2
      simp at hrm2
    | some entry =>
      simp only [hf] at hclear
      have hkeep : (!(entry.snd.isEmpty)) = true := by
        cases hsnd : entry.snd with
        | nil => exact absurd hsnd hclear.2
        | cons a t => rfl
      rw [find?_filter_of_found hf hkeep] at hrm2
      have hms : entry.snd = members := by
        simpa using hrm2
      rw [← hms]
      exact hclear.1

/-- Janitor state with a stale connection for u1 and a room that also
holds a second user, so the room survives the sweep without u1. -/
def exJanC10b : JanState :=
  { connections := [("s1", { userId := some "u1", activityIds := ["a1"] })],
    rooms := [("a1", ["u1", "u2"])], live := ["s2"],
    store := [], broadcasts := [] }

/-- C10 witness: on exJanC10b the janitor removes u1 from room a1 while
the room survives with u2. -/
theorem janitor_cleanup_law_witness :
    exJanC10b.live.contains "s1" = false
    ∧ roomMembers (janitor exJanC10b).rooms "a1" = some ["u2"]
    ∧ "u1" ∉ (["u2"] : List String) := by
  have h := (janitor_cleanup_law exJanC10b).2.2.2.2 "s1"
    { userId := some "u1", activityIds := ["a1"] } "u1" "a1"
    (by decide) (by decide) rfl (by decide) (by decide) ["u2"] (by decide)
  exact ⟨by decide, by decide, h⟩

/-- Activity whose only participant is still flagged connected, for the
janitor counterexample. -/
def exActC10 : Activity :=
  { id := "a1", votesPerUser := none, maxEntries := 1,
    participants := [{ id := "u1", username := "Uma", objectName := none,
                       isConnected := true, hasSubmitted := false, joinedAt := 0 }],
    ratings := [], comments := [] }

/-- Janitor state with one stale registry connection (socket s1 absent
from the live set) whose user u1 sits in room a1 and is recorded
connected in the store. -/
def exJanC10 : JanState :=
  { connections := [("s1", { userId := some "u1", activityIds := ["a1"] })],
    rooms := [("a1", ["u1"])], live := [],
    store := [("a1", exActC10)], broadcasts := [] }

/-- C10 counterexample: the claim fails — on a run over a stale
connection the janitor broadcasts nothing and leaves the stored
participant flagged connected, instead of performing the
disconnect-equivalent cleanup the claim describes. -/
theorem janitor_no_disconnect_cleanup_counterexample :
    exJanC10.live.contains "s1" = false
    ∧ (janitor exJanC10).broadcasts = []
    ∧ storeFind (janitor exJanC10).store "a1" = some exActC10
    ∧ (exActC10.participants.find? (fun p => p.id == "u1")).elim false
        (fun p => p.isConnected) = true := by
  decide

end Holoscopic
